import Mathlib

/-!
Verification of synapse-user-autoerase: the eligibility filter, the account directory
client and the erasure executor.

A shallow embedding of `cmd/suae/main.go`, `internal/config/config.go` and
`internal/models/*.go`.

* Go `int`/`int64` values are `Int`; where the source multiplies, the result is
  wrapped to 64 bits (`wrapInt64`).
* `time.Time` is an `Int` count of nanoseconds since the Unix epoch (wall clock),
  `time.Duration` an `Int` count of nanoseconds.
* `float64` is modelled exactly: a finite binary64 value is a dyadic number
  `m * 2^e`, and every arithmetic operation rounds its exact result to the nearest
  value with a 53-bit significand, ties to even (`F64.roundNat`).
* The process-wide variable `omitPrefixes` is passed explicitly.
* HTTP traffic goes through a `Client` over an arbitrary server state; the calls of
  the request functions and the requests sent are recorded in a `World`.
* A Go panic (of `loadConfig`, or of a field read through a nil pointer left by
  `Decode`) ends the process: functions that can panic return a `Run`.
-/

namespace Suae

/-! ## internal/models -/

/-- Account of `internal/models/users.go`. -/
structure Account where
  Name : String
  IsGuest : Bool
  Admin : Bool
  Deactivated : Bool
  Locked : Bool
  CreationTs : Int
  UploadedMedia : Int
  deriving DecidableEq, Repr

/-- AccountsResponse of `internal/models/users.go`. -/
structure AccountsResponse where
  Accounts : List Account
  NextToken : String
  Total : Int
  deriving DecidableEq, Repr

/-! ## binary64 arithmetic -/

namespace F64

/-- Finite binary64 value `m * 2^e` (not normalised; infinities, NaN and the sign of
zero are not represented, none of them arises from the operations below on the
values the program feeds them). -/
structure Float64 where
  m : Int
  e : Int
  deriving Repr

/-- Exact value of a float. -/
def toRat (x : Float64) : ℚ := (x.m : ℚ) * (2 : ℚ) ^ x.e

/-- Worker of `log2`, by halving, with a recursion budget. -/
def log2Aux : Nat → Nat → Nat
  | 0, _ => 0
  | fuel + 1, n => if n < 2 then 0 else log2Aux fuel (n / 2) + 1

/-- Position of the leading bit of `n`: `2^(log2 n) ≤ n < 2^(log2 n + 1)` for `n > 0`. -/
def log2 (n : Nat) : Nat := log2Aux n n

/-- Binary exponent of the positive rational `n / d`: the `e` with
`2^e ≤ n / d < 2^(e+1)`. -/
def ilog2 (n d : Nat) : Int :=
  let k : Int := (log2 n : Int) - (log2 d : Int)
  if d * 2 ^ k.toNat ≤ n * 2 ^ (-k).toNat then k else k - 1

/-- Nearest integer to `num / den`, ties to even. -/
def rne (num den : Nat) : Nat :=
  let q := num / den
  let r := num % den
  if 2 * r < den then q else if den < 2 * r then q + 1 else if q % 2 = 0 then q else q + 1

/-- Round the non-negative rational `n / d` to binary64 (round to nearest, ties to
even; 53-bit significand, least exponent `-1074`). -/
def roundNat (n d : Nat) : Float64 :=
  if n = 0 then ⟨0, 0⟩
  else
    let qe : Int := max (ilog2 n d - 52) (-1074)
    ⟨(rne (n * 2 ^ (-qe).toNat) (d * 2 ^ qe.toNat) : Nat), qe⟩

/-- Negation. -/
def neg (x : Float64) : Float64 := ⟨-x.m, x.e⟩

/-- Conversion `float64(i)` of an integer. -/
def ofInt (i : Int) : Float64 :=
  if i < 0 then neg (roundNat i.natAbs 1) else roundNat i.natAbs 1

/-- Sum `a + b`, rounded. -/
def add (a b : Float64) : Float64 :=
  let e : Int := min a.e b.e
  let s : Int := a.m * 2 ^ (a.e - e).toNat + b.m * 2 ^ (b.e - e).toNat
  let r := roundNat (s.natAbs * 2 ^ e.toNat) (2 ^ (-e).toNat)
  if s < 0 then neg r else r

/-- Quotient `a / b`, rounded (`b` is not zero). -/
def div (a b : Float64) : Float64 :=
  let r := roundNat (a.m.natAbs * 2 ^ (a.e - b.e).toNat) (b.m.natAbs * 2 ^ (b.e - a.e).toNat)
  if (decide (a.m < 0)) != (decide (b.m < 0)) then neg r else r

/-- Comparison `a <= b`. -/
def le (a b : Float64) : Bool :=
  decide (a.m * 2 ^ (a.e - b.e).toNat ≤ b.m * 2 ^ (b.e - a.e).toNat)

end F64

/-! ## package time -/

/-- Largest `time.Duration`. -/
def maxDuration : Int := 2 ^ 63 - 1

/-- Smallest `time.Duration`. -/
def minDuration : Int := -2 ^ 63

/-- The constant `time.Hour`, in nanoseconds. -/
def Hour : Int := 3600000000000

/-- The constant `time.Millisecond`, in nanoseconds. -/
def Millisecond : Int := 1000000

/-- Two's-complement wrap of an `int64` result. -/
def wrapInt64 (x : Int) : Int := (x + 2 ^ 63) % 2 ^ 64 - 2 ^ 63

/-- The call `time.Unix(0, nsec)`. -/
def Unix (nsec : Int) : Int := nsec

/-- The method `Time.Sub`: the difference `t - u`, saturated to the `Duration` range. -/
def Sub (t u : Int) : Int :=
  if t - u < minDuration then minDuration
  else if maxDuration < t - u then maxDuration
  else t - u

/-- The call `time.Since(t)` when the wall clock reads `now`. -/
def Since (now t : Int) : Int := Sub now t

/-- The method `Duration.Abs`. -/
def Abs (d : Int) : Int :=
  if 0 ≤ d then d else if d = minDuration then maxDuration else -d

/-- The method `Duration.Hours`:
`hour := d / Hour; nsec := d % Hour; float64(hour) + float64(nsec)/(60*60*1e9)`. -/
def Hours (d : Int) : F64.Float64 :=
  let hour := Int.tdiv d Hour
  let nsec := Int.tmod d Hour
  F64.add (F64.ofInt hour) (F64.div (F64.ofInt nsec) (F64.ofInt 3600000000000))

/-! ## package strings -/

/-- The function `strings.HasPrefix`. -/
def HasPrefix (s pre : String) : Bool := pre.data.isPrefixOf s.data

/-! ## cmd/suae: eligibility filter -/

/-- Initial value of the variable `omitPrefixes`. -/
def omitPrefixes : List String :=
  [ "@bluesky_", "@blueskybot:", "@discord_", "@discordbot:", "@emailbot:",
    "@gmessages_", "@gmessagesbot:", "@googlechat_", "@googlechatbot:",
    "@heisenbridge:", "@hookshot:", "@instagram_", "@instagrambot:",
    "@linkedin_", "@linkedinbot:", "@messenger_", "@messengerbot:", "@reminder:",
    "@signal_", "@signalbot:", "@slack_", "@slackbot:", "@steam_", "@steambot:",
    "@telegram_", "@telegrambot:", "@twitter_", "@twitterbot:", "@wechat_",
    "@wechatbot:", "@whatsapp_", "@whatsappbot:", "@zulip_", "@zulipbot:" ]

/-- The function `filterByName`, reading the current prefix list `prefixes`. -/
def filterByName : List String → String → Bool
  | [], _ => false
  | part :: rest, name => if HasPrefix name part then true else filterByName rest name

/-- The function `filterByTS` when the clock reads `now`. -/
def filterByTS (now ts ttl : Int) : Bool :=
  if ttl = 0 then false
  else
    let timestamp := Unix (wrapInt64 (ts * Millisecond))
    F64.le (Hours (Abs (Since now timestamp))) (F64.ofInt (wrapInt64 (ttl * 24)))

/-- The function `filterAccounts`: the loop appends the accounts that pass no check. -/
def filterAccounts (prefixes : List String) (now : Int) (accounts : List Account)
    (ttl : Int) : List Account :=
  accounts.foldl
    (fun filtered account =>
      if account.IsGuest || account.Admin || account.Deactivated || account.Locked then filtered
      else if filterByName prefixes account.Name then filtered
      else if filterByTS now account.CreationTs ttl then filtered
      else filtered ++ [account])
    []

/-- Specification-side predicate: an account is eligible when none of its four flags is
set, its name starts with none of the excluded prefixes, and `filterByTS` is false for
its creation timestamp. -/
def eligible (prefixes : List String) (now ttl : Int) (a : Account) : Bool :=
  !(a.IsGuest || a.Admin || a.Deactivated || a.Locked)
    && decide (∀ p ∈ prefixes, ¬ p.data <+: a.Name.data)
    && !(filterByTS now a.CreationTs ttl)

/-! ## internal/config -/

/-- Config of `internal/config/config.go`. -/
structure Config where
  Host : String
  Token : String
  DryRun : Bool
  Redact : Bool
  Prefixes : List String
  TTL : Int
  deriving DecidableEq, Repr

/-- The readers of package `gitlab.com/etke.cc/go/env` over the process environment,
after `env.SetPrefix("suae")`: `str` is `env.String`, `slice` is `env.Slice`,
`bool` is `env.Bool` and `int` is `env.Int`, each applied to the short key. -/
structure Env where
  str : String → String
  slice : String → List String
  bool : String → Bool
  int : String → Int

/-- The function `config.New`. The literal sets five fields; `Redact` keeps its zero
value. -/
def New (env : Env) : Config :=
  { Host := env.str "host"
    Token := env.str "token"
    Prefixes := env.slice "prefixes"
    DryRun := env.bool "dryrun"
    TTL := env.int "ttl"
    Redact := false }

/-- The function `loadConfig`; a panic is an error result. On success the second
component is the new value of the variable `omitPrefixes`, whose current value is
`prefixes`. -/
def loadConfig (env : Env) (prefixes : List String) : Except String (Config × List String) :=
  let cfg := New env
  if cfg.Host = "" then Except.error "Host is required"
  else if cfg.Token = "" then Except.error "Token is required"
  else if cfg.TTL ≤ 0 then Except.error "TTL must be greater than 0"
  else Except.ok (cfg, prefixes ++ cfg.Prefixes)

/-- Command-line flags after `flag.Parse`: `none` when the flag is not passed. -/
structure Flags where
  dryrun : Option Bool
  redact : Option Bool

/-- Value of the variable `dryRunMode` after `flag.Parse`. -/
def dryRunMode (cfg : Config) (flags : Flags) : Bool := flags.dryrun.getD cfg.DryRun

/-- Value of the variable `redactMode` after `flag.Parse`. -/
def redactMode (cfg : Config) (flags : Flags) : Bool := flags.redact.getD cfg.Redact

/-! ## cmd/suae: HTTP calls -/

/-- The constant `UserAgent`. -/
def UserAgent : String :=
  "Synapse User Auto Erase (library; +https://github.com/etkecc/synapse-user-autoerase)"

/-- The variable `redactMessagesBody`. -/
def redactMessagesBody : String := "\x7b\"rooms\":[]\x7d"

/-- The parts of an `http.Request` that `newRequest` sets. -/
structure Request where
  Method : String
  URL : String
  Authorization : String
  ContentType : String
  UserAgent : String
  Body : String
  deriving DecidableEq, Repr

/-- The parts of an `http.Response` the program reads. -/
structure Response where
  StatusCode : Int
  Body : String
  deriving DecidableEq, Repr

/-- What a call does in the end: it returns, or the process panics. -/
inductive Run (α : Type) where
  | ret (a : α)
  | panic (msg : String)
  deriving DecidableEq, Repr

/-- The run-time panic raised by reading a field through a nil pointer. -/
def nilDereference : String :=
  "runtime error: invalid memory address or nil pointer dereference"

/-- What lies outside the program: `http.NewRequest` (the error it returns for a
method and URL, if any), `http.DefaultClient.Do` over a server in state `σ`, and
`json.NewDecoder(resp.Body).Decode` into a nil pointer to each of the three response
types (`AccountsResponse`, and the `total` field of `DeletedMediaResponse` and of
`MediaResponse`). A decoder answers an error, or no error with the pointer it leaves:
`none` when the pointer stays nil (the body `null`), `some` otherwise. -/
structure Client (σ : Type) where
  NewRequest : String → String → Option String
  Do : σ → Request → Except String Response × σ
  DecodeAccounts : String → Except String (Option AccountsResponse)
  DecodeDeletedMedia : String → Except String (Option Int)
  DecodeMedia : String → Except String (Option Int)

/-- A call of one of the program's own request functions. -/
inductive Call where
  | loadAccounts (tok : String)
  | deleteAccount (name : String)
  | deleteMedia (name : String)
  | deleteMessages (name : String)
  | getMediaCount (name : String)
  deriving DecidableEq, Repr

/-- Server state together with the record of what the program did so far: the calls
of its request functions and the requests handed to `http.DefaultClient.Do`. -/
structure World (σ : Type) where
  srv : σ
  calls : List Call
  sent : List Request

/-- Record a call. -/
def World.enter {σ : Type} (w : World σ) (c : Call) : World σ :=
  { w with calls := w.calls ++ [c] }

/-- The call `http.DefaultClient.Do(req)`, recorded. -/
def send {σ : Type} (c : Client σ) (w : World σ) (req : Request) :
    Except String Response × World σ :=
  ((c.Do w.srv req).1, { srv := (c.Do w.srv req).2, calls := w.calls, sent := w.sent ++ [req] })

/-- The function `newRequest`; `none` for the body is `http.NoBody`. -/
def newRequest {σ : Type} (c : Client σ) (method uri token : String) (optionalBody : Option String) :
    Except String Request :=
  match c.NewRequest method uri with
  | some err => Except.error err
  | none =>
    Except.ok
      { Method := method
        URL := uri
        Authorization := "Bearer " ++ token
        ContentType := "application/json"
        UserAgent := UserAgent
        Body := optionalBody.getD "" }

/-- The function `loadAccounts`. The recursion follows the server's continuation
tokens, so it is bounded by `fuel`: `none` when the budget runs out. A returned result
pairs the returned slice with the returned error; reading `accounts.Accounts` through
the pointer `Decode` left nil panics. -/
def loadAccounts {σ : Type} (c : Client σ) (cfg : Config) :
    Nat → Option String → World σ → Option (Run (List Account × Option String) × World σ)
  | 0, _, _ => none
  | fuel + 1, nextToken, w0 =>
    let tok := nextToken.getD "0"
    let w := w0.enter (Call.loadAccounts tok)
    let uri := cfg.Host ++ "/_synapse/admin/v2/users?from=" ++ tok
      ++ "&limit=1000&guests=false&admins=false&deactivated=false&order_by=creation_ts&dir=b"
    match newRequest c "GET" uri cfg.Token none with
    | Except.error err => some (Run.ret ([], some err), w)
    | Except.ok req =>
      match send c w req with
      | (Except.error err, w1) => some (Run.ret ([], some err), w1)
      | (Except.ok resp, w1) =>
        match c.DecodeAccounts resp.Body with
        | Except.error err => some (Run.ret ([], some err), w1)
        | Except.ok none => some (Run.panic nilDereference, w1)
        | Except.ok (some accounts) =>
          let totalAccounts := [] ++ accounts.Accounts
          if accounts.NextToken = "" then some (Run.ret (totalAccounts, none), w1)
          else
            match loadAccounts c cfg fuel (some accounts.NextToken) w1 with
            | none => none
            | some (Run.panic msg, w2) => some (Run.panic msg, w2)
            | some (Run.ret (_, some err), w2) => some (Run.ret (totalAccounts, some err), w2)
            | some (Run.ret (moreAccounts, none), w2) =>
              some (Run.ret (totalAccounts ++ moreAccounts, none), w2)

/-- The function `getMediaCount`; reading `media.Total` through the pointer `Decode`
left nil panics. -/
def getMediaCount {σ : Type} (c : Client σ) (cfg : Config) (mxid : String) (w0 : World σ) :
    Run (Except String Int) × World σ :=
  let w := w0.enter (Call.getMediaCount mxid)
  let uri := cfg.Host ++ "/_synapse/admin/v1/users/" ++ mxid ++ "/media?limit=1"
  match newRequest c "GET" uri cfg.Token none with
  | Except.error err => (Run.ret (Except.error err), w)
  | Except.ok req =>
    match send c w req with
    | (Except.error err, w1) => (Run.ret (Except.error err), w1)
    | (Except.ok resp, w1) =>
      match c.DecodeMedia resp.Body with
      | Except.error err => (Run.ret (Except.error err), w1)
      | Except.ok none => (Run.panic nilDereference, w1)
      | Except.ok (some total) => (Run.ret (Except.ok total), w1)

/-- The function `addMediaCount`; the accounts are updated in place in the source, the
updated list is returned here. A panic of `getMediaCount` ends the loop. -/
def addMediaCount {σ : Type} (c : Client σ) (cfg : Config) :
    List Account → World σ → Run (List Account) × World σ
  | [], w => (Run.ret [], w)
  | account :: rest, w =>
    match getMediaCount c cfg account.Name w with
    | (Run.panic msg, w1) => (Run.panic msg, w1)
    | (Run.ret (Except.error _), w1) =>
      match addMediaCount c cfg rest w1 with
      | (Run.panic msg, w2) => (Run.panic msg, w2)
      | (Run.ret done, w2) => (Run.ret (account :: done), w2)
    | (Run.ret (Except.ok mediaCount), w1) =>
      match addMediaCount c cfg rest w1 with
      | (Run.panic msg, w2) => (Run.panic msg, w2)
      | (Run.ret done, w2) => (Run.ret ({ account with UploadedMedia := mediaCount } :: done), w2)

/-- The function `deleteAccount`; the result is the returned error, `none` for `nil`. -/
def deleteAccount {σ : Type} (c : Client σ) (cfg : Config) (account : Account) (w0 : World σ) :
    Option String × World σ :=
  let w := w0.enter (Call.deleteAccount account.Name)
  let uri := cfg.Host ++ "/_synapse/admin/v1/deactivate/" ++ account.Name
  match newRequest c "POST" uri cfg.Token (some "\x7b\"erase\": true\x7d") with
  | Except.error err => (some err, w)
  | Except.ok req =>
    match send c w req with
    | (Except.error err, w1) => (some err, w1)
    | (Except.ok _, w1) => (none, w1)

/-- The function `deleteMedia`; reading `deletedMedia.Total` through the pointer
`Decode` left nil panics. -/
def deleteMedia {σ : Type} (c : Client σ) (cfg : Config) (account : Account) (w0 : World σ) :
    Run (Except String Int) × World σ :=
  let w := w0.enter (Call.deleteMedia account.Name)
  let uri := cfg.Host ++ "/_synapse/admin/v1/users/" ++ account.Name ++ "/media"
  match newRequest c "DELETE" uri cfg.Token none with
  | Except.error err => (Run.ret (Except.error err), w)
  | Except.ok req =>
    match send c w req with
    | (Except.error err, w1) => (Run.ret (Except.error err), w1)
    | (Except.ok resp, w1) =>
      match c.DecodeDeletedMedia resp.Body with
      | Except.error err => (Run.ret (Except.error err), w1)
      | Except.ok none => (Run.panic nilDereference, w1)
      | Except.ok (some total) => (Run.ret (Except.ok total), w1)

/-- The function `deleteMessages`; the result is the returned error, `none` for `nil`. -/
def deleteMessages {σ : Type} (c : Client σ) (cfg : Config) (account : Account) (w0 : World σ) :
    Option String × World σ :=
  let w := w0.enter (Call.deleteMessages account.Name)
  let uri := cfg.Host ++ "/_synapse/admin/v1/user/" ++ account.Name ++ "/redact"
  match newRequest c "POST" uri cfg.Token (some redactMessagesBody) with
  | Except.error err => (some err, w)
  | Except.ok req =>
    match send c w req with
    | (Except.error err, w1) => (some err, w1)
    | (Except.ok resp, w1) =>
      if resp.StatusCode ≠ 200 then (some ("failed to redact messages: " ++ resp.Body), w1)
      else (none, w1)

/-! ## cmd/suae: main -/

/-- One iteration of the erase loop of `main` (lines 102-119): an error of
`deleteAccount` skips the rest of the iteration, an error of `deleteMedia` or of
`deleteMessages` is only logged, a panic of `deleteMedia` ends the process. -/
def eraseOne {σ : Type} (c : Client σ) (cfg : Config) (redact : Bool) (account : Account)
    (w : World σ) : Run Unit × World σ :=
  match deleteAccount c cfg account w with
  | (some _, w1) => (Run.ret (), w1)
  | (none, w1) =>
    match deleteMedia c cfg account w1 with
    | (Run.panic msg, w2) => (Run.panic msg, w2)
    | (Run.ret _, w2) =>
      if redact then (Run.ret (), (deleteMessages c cfg account w2).2) else (Run.ret (), w2)

/-- The erase loop of `main`: `for _, account := range accounts`. -/
def eraseLoop {σ : Type} (c : Client σ) (cfg : Config) (redact : Bool) :
    List Account → World σ → Run Unit × World σ
  | [], w => (Run.ret (), w)
  | account :: rest, w =>
    match eraseOne c cfg redact account w with
    | (Run.panic msg, w1) => (Run.panic msg, w1)
    | (Run.ret _, w1) => eraseLoop c cfg redact rest w1

/-- The function `main`, from the server state `srv`, with the clock reading `now` in
the filter. `none` when listing runs out of `fuel`; otherwise how the process ends
(return, or panic of `loadConfig` or of a nil dereference) and the world it leaves.
The function `dryRun` only sorts and prints and issues no request; log output is not
part of the result. -/
def main {σ : Type} (c : Client σ) (env : Env) (flags : Flags) (now : Int) (fuel : Nat) (srv : σ) :
    Option (Run Unit × World σ) :=
  match loadConfig env omitPrefixes with
  | Except.error msg => some (Run.panic msg, { srv := srv, calls := [], sent := [] })
  | Except.ok (cfg, prefixes) =>
    match loadAccounts c cfg fuel none { srv := srv, calls := [], sent := [] } with
    | none => none
    | some (Run.panic msg, w1) => some (Run.panic msg, w1)
    | some (Run.ret (accounts, _), w1) =>
      let filtered := filterAccounts prefixes now accounts cfg.TTL
      if filtered.length = 0 then some (Run.ret (), w1)
      else if dryRunMode cfg flags then
        match addMediaCount c cfg filtered w1 with
        | (Run.panic msg, w2) => some (Run.panic msg, w2)
        | (Run.ret _, w2) => some (Run.ret (), w2)
      else some (eraseLoop c cfg (redactMode cfg flags) filtered w1)

/-! ## Example data -/

/-- Example environment: a valid configuration with one extra prefix. -/
def exampleEnv : Env :=
  { str := fun k => if k = "host" then "https://matrix.example.org" else "secret"
    slice := fun _ => ["@mybot:"]
    bool := fun _ => false
    int := fun _ => 30 }

/-- Example environment: `exampleEnv` with dry-run mode switched on. -/
def exampleDryEnv : Env :=
  { str := fun k => if k = "host" then "https://matrix.example.org" else "secret"
    slice := fun _ => ["@mybot:"]
    bool := fun k => decide (k = "dryrun")
    int := fun _ => 30 }

/-- Example account, created in 2009. -/
def alice : Account := ⟨"@alice:example.org", false, false, false, false, 1250000000000, 0⟩

/-- Example account, created in 2009. -/
def bob : Account := ⟨"@bob:example.org", false, false, false, false, 1250000000001, 0⟩

/-- Example account, created in 2009. -/
def carol : Account := ⟨"@carol:example.org", false, false, false, false, 1250000000002, 0⟩

/-- The listing URL `loadAccounts` builds for host `https://matrix.example.org`. -/
def exampleListURL (tok : String) : String :=
  "https://matrix.example.org/_synapse/admin/v2/users?from=" ++ tok
    ++ "&limit=1000&guests=false&admins=false&deactivated=false&order_by=creation_ts&dir=b"

/-- Example server, its state the number of requests answered: the listing has the
pages `[alice]` (token `t1`) and `[bob]` (token `t2`), the fetch of the third page
fails; the deactivation of `@alice:example.org` fails in transport; every other request
is answered with status 500 and a body that is not JSON. -/
def exampleClient : Client Nat :=
  { NewRequest := fun _ _ => none
    Do := fun n req =>
      if req.URL = exampleListURL "0" then (Except.ok ⟨200, "page1"⟩, n + 1)
      else if req.URL = exampleListURL "t1" then (Except.ok ⟨200, "page2"⟩, n + 1)
      else if req.URL = exampleListURL "t2" then (Except.error "connection reset", n + 1)
      else if req.URL = "https://matrix.example.org/_synapse/admin/v1/deactivate/@alice:example.org"
        then (Except.error "timeout", n + 1)
      else (Except.ok ⟨500, "oops"⟩, n + 1)
    DecodeAccounts := fun b =>
      if b = "page1" then Except.ok (some ⟨[alice], "t1", 2⟩)
      else if b = "page2" then Except.ok (some ⟨[bob], "t2", 2⟩)
      else Except.error "invalid character"
    DecodeDeletedMedia := fun _ => Except.error "invalid character"
    DecodeMedia := fun _ => Except.error "invalid character" }

/-- Example server that answers every request with the given status and body, which is
not JSON. -/
def statusClient (status : Int) (body : String) : Client Unit :=
  { NewRequest := fun _ _ => none
    Do := fun s _ => (Except.ok ⟨status, body⟩, s)
    DecodeAccounts := fun _ => Except.error "invalid character"
    DecodeDeletedMedia := fun _ => Except.error "invalid character"
    DecodeMedia := fun _ => Except.error "invalid character" }

/-- Example server, its state the number of requests answered: the listing is the one
page `[alice, bob, carol]`; the deactivation of `@alice:example.org` fails in
transport; every other request is answered with status 200 and the body `null`, which
the decoders accept, leaving the pointer nil. -/
def nullBodyClient : Client Nat :=
  { NewRequest := fun _ _ => none
    Do := fun n req =>
      if req.URL = exampleListURL "0" then (Except.ok ⟨200, "page"⟩, n + 1)
      else if req.URL = "https://matrix.example.org/_synapse/admin/v1/deactivate/@alice:example.org"
        then (Except.error "timeout", n + 1)
      else (Except.ok ⟨200, "null"⟩, n + 1)
    DecodeAccounts := fun b =>
      if b = "page" then Except.ok (some ⟨[alice, bob, carol], "", 3⟩)
      else if b = "null" then Except.ok none
      else Except.error "invalid character"
    DecodeDeletedMedia := fun b =>
      if b = "null" then Except.ok none else Except.error "invalid character"
    DecodeMedia := fun b =>
      if b = "null" then Except.ok none else Except.error "invalid character" }

/-! ## Rounding lemmas -/

namespace F64

theorem log2Aux_spec : ∀ (fuel n : Nat), n ≤ fuel → 0 < n →
    2 ^ log2Aux fuel n ≤ n ∧ n < 2 ^ (log2Aux fuel n + 1) := by
  intro fuel
  induction fuel with
  | zero => intro n h1 h2; omega
  | succ f ih =>
    intro n h1 h2
    unfold log2Aux
    by_cases h : n < 2
    · simp only [h, if_true]
      constructor
      · simp; omega
      · simp; omega
    · simp only [h, if_false]
      have h3 : n / 2 ≤ f := by omega
      have h4 : 0 < n / 2 := by omega
      obtain ⟨a, b⟩ := ih (n / 2) h3 h4
      rw [pow_succ] at b
      constructor
      · rw [pow_succ]; omega
      · rw [pow_succ, pow_succ]; omega

theorem log2_spec (n : Nat) (h : 0 < n) : 2 ^ log2 n ≤ n ∧ n < 2 ^ (log2 n + 1) :=
  log2Aux_spec n n (le_refl n) h

theorem two_zpow_split (k : Int) :
    (2 : ℚ) ^ k = (2 : ℚ) ^ k.toNat / (2 : ℚ) ^ (-k).toNat := by
  rcases le_total 0 k with h | h
  · have h1 : (-k).toNat = 0 := by omega
    have h2 : ((k.toNat : Int)) = k := Int.toNat_of_nonneg h
    rw [h1, pow_zero, div_one]
    conv_lhs => rw [← h2]
    rw [zpow_natCast]
  · have h1 : k.toNat = 0 := by omega
    have h2 : (((-k).toNat : Int)) = -k := Int.toNat_of_nonneg (by omega)
    have h3 : k = -(((-k).toNat : Int)) := by omega
    rw [h1, pow_zero]
    conv_lhs => rw [h3]
    rw [zpow_neg, zpow_natCast, one_div]

theorem two_zpow_pos (k : Int) : (0 : ℚ) < (2 : ℚ) ^ k := zpow_pos (by norm_num) k

theorem two_zpow_le {a b : Int} (h : a ≤ b) : (2 : ℚ) ^ a ≤ (2 : ℚ) ^ b :=
  zpow_le_zpow_right₀ (by norm_num) h

theorem two_zpow_lt_imp {a b : Int} (h : (2 : ℚ) ^ a < (2 : ℚ) ^ b) : a < b := by
  by_contra hc
  have := two_zpow_le (not_lt.mp hc)
  exact absurd h (not_lt.mpr this)

theorem ilog2_spec (n d : Nat) (hn : 0 < n) (hd : 0 < d) :
    (2 : ℚ) ^ ilog2 n d ≤ (n : ℚ) / d ∧ (n : ℚ) / d < (2 : ℚ) ^ (ilog2 n d + 1) := by
  obtain ⟨n1, n2⟩ := log2_spec n hn
  obtain ⟨d1, d2⟩ := log2_spec d hd
  have hdq : (0 : ℚ) < d := by exact_mod_cast hd
  have n1q : (2 : ℚ) ^ ((log2 n : Int)) ≤ n := by
    rw [zpow_natCast]; exact_mod_cast n1
  have n2q : (n : ℚ) < (2 : ℚ) ^ ((log2 n : Int) + 1) := by
    have : ((log2 n : Int) + 1) = ((log2 n + 1 : Nat) : Int) := by push_cast; ring
    rw [this, zpow_natCast]; exact_mod_cast n2
  have d1q : (2 : ℚ) ^ ((log2 d : Int)) ≤ d := by
    rw [zpow_natCast]; exact_mod_cast d1
  have d2q : (d : ℚ) < (2 : ℚ) ^ ((log2 d : Int) + 1) := by
    have : ((log2 d : Int) + 1) = ((log2 d + 1 : Nat) : Int) := by push_cast; ring
    rw [this, zpow_natCast]; exact_mod_cast d2
  have key : ∀ k : Int, (d * 2 ^ k.toNat ≤ n * 2 ^ (-k).toNat) ↔ (2 : ℚ) ^ k ≤ (n : ℚ) / d := by
    intro k
    have hp : (0 : ℚ) < (2 : ℚ) ^ (-k).toNat := pow_pos (by norm_num) _
    rw [two_zpow_split k, div_le_div_iff₀ hp hdq]
    constructor
    · intro h
      have : ((d * 2 ^ k.toNat : Nat) : ℚ) ≤ ((n * 2 ^ (-k).toNat : Nat) : ℚ) := by exact_mod_cast h
      push_cast at this
      linarith
    · intro h
      have : ((d * 2 ^ k.toNat : Nat) : ℚ) ≤ ((n * 2 ^ (-k).toNat : Nat) : ℚ) := by
        push_cast; linarith
      exact_mod_cast this
  unfold ilog2
  simp only []
  by_cases hk : d * 2 ^ ((log2 n : Int) - (log2 d : Int)).toNat
      ≤ n * 2 ^ (-((log2 n : Int) - (log2 d : Int))).toNat
  · rw [if_pos hk]
    refine ⟨(key _).mp hk, ?_⟩
    rw [div_lt_iff₀ hdq]
    calc (n : ℚ) < (2 : ℚ) ^ ((log2 n : Int) + 1) := n2q
      _ = (2 : ℚ) ^ ((log2 n : Int) - (log2 d : Int) + 1) * (2 : ℚ) ^ ((log2 d : Int)) := by
          rw [← zpow_add₀ (by norm_num : (2 : ℚ) ≠ 0)]; congr 1; ring
      _ ≤ (2 : ℚ) ^ ((log2 n : Int) - (log2 d : Int) + 1) * d :=
          mul_le_mul_of_nonneg_left d1q (le_of_lt (two_zpow_pos _))
  · rw [if_neg hk]
    have hk2 : ¬ (2 : ℚ) ^ ((log2 n : Int) - (log2 d : Int)) ≤ (n : ℚ) / d :=
      fun h => hk ((key _).mpr h)
    refine ⟨?_, ?_⟩
    · rw [le_div_iff₀ hdq]
      calc (2 : ℚ) ^ ((log2 n : Int) - (log2 d : Int) - 1) * d
          ≤ (2 : ℚ) ^ ((log2 n : Int) - (log2 d : Int) - 1) * (2 : ℚ) ^ ((log2 d : Int) + 1) :=
            mul_le_mul_of_nonneg_left (le_of_lt d2q) (le_of_lt (two_zpow_pos _))
        _ = (2 : ℚ) ^ ((log2 n : Int)) := by
            rw [← zpow_add₀ (by norm_num : (2 : ℚ) ≠ 0)]; congr 1; ring
        _ ≤ n := n1q
    · have : (log2 n : Int) - (log2 d : Int) - 1 + 1 = (log2 n : Int) - (log2 d : Int) := by ring
      rw [this]
      exact not_le.mp hk2

theorem rne_le (num den K : Nat) (hden : 0 < den) (h : num ≤ K * den) : rne num den ≤ K := by
  have hq : num / den ≤ K := Nat.div_le_of_le_mul (by rw [Nat.mul_comm]; exact h)
  have hdm := Nat.div_add_mod num den
  have hr : num % den < den := Nat.mod_lt _ hden
  have hstep : 0 < num % den → num / den + 1 ≤ K := by
    intro hpos
    have : den * (num / den) < den * K := by
      have : den * K = K * den := Nat.mul_comm _ _
      omega
    exact Nat.lt_of_mul_lt_mul_left this
  unfold rne
  simp only []
  split_ifs <;> first | exact hq | (apply hstep; omega)

theorem le_rne (num den K : Nat) (hden : 0 < den) (h : K * den ≤ num) : K ≤ rne num den := by
  have hq : K ≤ num / den := (Nat.le_div_iff_mul_le hden).mpr h
  unfold rne
  simp only []
  split_ifs <;> omega

theorem roundNat_val (n d : Nat) (hn : 0 < n) :
    toRat (roundNat n d) =
      (rne (n * 2 ^ (-(max (ilog2 n d - 52) (-1074))).toNat)
          (d * 2 ^ (max (ilog2 n d - 52) (-1074)).toNat) : ℚ)
        * (2 : ℚ) ^ (max (ilog2 n d - 52) (-1074)) := by
  unfold roundNat toRat
  rw [if_neg (by omega)]
  simp

theorem roundNat_nonneg (n d : Nat) : 0 ≤ toRat (roundNat n d) := by
  unfold roundNat toRat
  split_ifs
  · simp
  · simp only []
    exact mul_nonneg (by exact_mod_cast Int.natCast_nonneg _) (le_of_lt (two_zpow_pos _))

theorem roundNat_m_nonneg (n d : Nat) : 0 ≤ (roundNat n d).m := by
  unfold roundNat
  split_ifs
  · simp
  · simp

theorem zpow_scale (q j : Int) (h : q ≤ j) :
    (2 : ℚ) ^ j = ((2 ^ (j - q).toNat : Nat) : ℚ) * (2 : ℚ) ^ q := by
  have h1 : (((j - q).toNat : Int)) = j - q := Int.toNat_of_nonneg (by omega)
  push_cast
  rw [← zpow_natCast, h1, ← zpow_add₀ (by norm_num : (2 : ℚ) ≠ 0)]
  congr 1; ring

/-- Rounding never crosses a representable value from below. -/
theorem roundNat_le (n d m : Nat) (j : Int) (hd : 0 < d) (hm : m < 2 ^ 53) (hj : -1074 ≤ j)
    (h : (n : ℚ) / d ≤ (m : ℚ) * (2 : ℚ) ^ j) : toRat (roundNat n d) ≤ (m : ℚ) * (2 : ℚ) ^ j := by
  rcases Nat.eq_zero_or_pos n with hn | hn
  · subst hn
    have : toRat (roundNat 0 d) = 0 := by simp [roundNat, toRat]
    rw [this]
    exact mul_nonneg (by positivity) (le_of_lt (two_zpow_pos _))
  · have hdq : (0 : ℚ) < d := by exact_mod_cast hd
    obtain ⟨e1, _⟩ := ilog2_spec n d hn hd
    have hmq : (m : ℚ) < (2 : ℚ) ^ (53 : Int) := by
      have : ((m : Nat) : ℚ) < ((2 ^ 53 : Nat) : ℚ) := by exact_mod_cast hm
      have h2 : ((2 : ℚ) ^ (53 : Int)) = ((2 ^ 53 : Nat) : ℚ) := by norm_num
      rw [h2]; exact this
    have hlt : (2 : ℚ) ^ ilog2 n d < (2 : ℚ) ^ (53 + j) := by
      calc (2 : ℚ) ^ ilog2 n d ≤ (n : ℚ) / d := e1
        _ ≤ (m : ℚ) * (2 : ℚ) ^ j := h
        _ < (2 : ℚ) ^ (53 : Int) * (2 : ℚ) ^ j := mul_lt_mul_of_pos_right hmq (two_zpow_pos _)
        _ = (2 : ℚ) ^ (53 + j) := by rw [← zpow_add₀ (by norm_num : (2 : ℚ) ≠ 0)]
    have he : ilog2 n d < 53 + j := two_zpow_lt_imp hlt
    have hq : max (ilog2 n d - 52) (-1074) ≤ j := max_le (by omega) hj
    rw [roundNat_val n d hn]
    generalize max (ilog2 n d - 52) (-1074) = q at hq ⊢
    have hA : (0 : ℚ) < (2 : ℚ) ^ (-q).toNat := pow_pos (by norm_num) _
    have hB : (0 : ℚ) < (2 : ℚ) ^ q.toNat := pow_pos (by norm_num) _
    have hsplit := two_zpow_split q
    have hscale := zpow_scale q j hq
    have hK : rne (n * 2 ^ (-q).toNat) (d * 2 ^ q.toNat) ≤ m * 2 ^ (j - q).toNat := by
      apply rne_le _ _ _ (Nat.mul_pos hd (pow_pos (by norm_num) _))
      have : ((n * 2 ^ (-q).toNat : Nat) : ℚ)
          ≤ ((m * 2 ^ (j - q).toNat * (d * 2 ^ q.toNat) : Nat) : ℚ) := by
        push_cast
        push_cast at hscale
        rw [div_le_iff₀ hdq] at h
        rw [hscale, hsplit] at h
        have h3 : (n : ℚ) * (2 : ℚ) ^ (-q).toNat
            ≤ (m : ℚ) * ((2 : ℚ) ^ (j - q).toNat * ((2 : ℚ) ^ q.toNat / (2 : ℚ) ^ (-q).toNat)) * d
              * (2 : ℚ) ^ (-q).toNat := mul_le_mul_of_nonneg_right h (le_of_lt hA)
        calc (n : ℚ) * (2 : ℚ) ^ (-q).toNat ≤ _ := h3
          _ = (m : ℚ) * (2 : ℚ) ^ (j - q).toNat * (d * (2 : ℚ) ^ q.toNat) := by
              field_simp; ring
      exact_mod_cast this
    have hKq : ((rne (n * 2 ^ (-q).toNat) (d * 2 ^ q.toNat) : Nat) : ℚ)
        ≤ ((m * 2 ^ (j - q).toNat : Nat) : ℚ) := by exact_mod_cast hK
    calc ((rne (n * 2 ^ (-q).toNat) (d * 2 ^ q.toNat) : Nat) : ℚ) * (2 : ℚ) ^ q
        ≤ ((m * 2 ^ (j - q).toNat : Nat) : ℚ) * (2 : ℚ) ^ q :=
          mul_le_mul_of_nonneg_right hKq (le_of_lt (two_zpow_pos _))
      _ = (m : ℚ) * (2 : ℚ) ^ j := by rw [hscale]; push_cast; ring

/-- Rounding never crosses a representable value from above. -/
theorem le_roundNat (n d m : Nat) (j : Int) (hd : 0 < d) (hm : m < 2 ^ 53) (hj : -1074 ≤ j)
    (h : (m : ℚ) * (2 : ℚ) ^ j ≤ (n : ℚ) / d) : (m : ℚ) * (2 : ℚ) ^ j ≤ toRat (roundNat n d) := by
  rcases Nat.eq_zero_or_pos n with hn | hn
  · subst hn
    have : toRat (roundNat 0 d) = 0 := by simp [roundNat, toRat]
    rw [this]
    simpa using h
  · have hdq : (0 : ℚ) < d := by exact_mod_cast hd
    obtain ⟨e1, _⟩ := ilog2_spec n d hn hd
    rw [roundNat_val n d hn]
    rcases le_or_lt (max (ilog2 n d - 52) (-1074)) j with hq | hq
    · generalize max (ilog2 n d - 52) (-1074) = q at hq ⊢
      have hA : (0 : ℚ) < (2 : ℚ) ^ (-q).toNat := pow_pos (by norm_num) _
      have hB : (0 : ℚ) < (2 : ℚ) ^ q.toNat := pow_pos (by norm_num) _
      have hsplit := two_zpow_split q
      have hscale := zpow_scale q j hq
      have hK : m * 2 ^ (j - q).toNat ≤ rne (n * 2 ^ (-q).toNat) (d * 2 ^ q.toNat) := by
        apply le_rne _ _ _ (Nat.mul_pos hd (pow_pos (by norm_num) _))
        have : ((m * 2 ^ (j - q).toNat * (d * 2 ^ q.toNat) : Nat) : ℚ)
            ≤ ((n * 2 ^ (-q).toNat : Nat) : ℚ) := by
          push_cast
          push_cast at hscale
          rw [le_div_iff₀ hdq] at h
          rw [hscale, hsplit] at h
          have h3 : (m : ℚ) * ((2 : ℚ) ^ (j - q).toNat * ((2 : ℚ) ^ q.toNat / (2 : ℚ) ^ (-q).toNat))
              * d * (2 : ℚ) ^ (-q).toNat ≤ (n : ℚ) * (2 : ℚ) ^ (-q).toNat :=
            mul_le_mul_of_nonneg_right h (le_of_lt hA)
          calc (m : ℚ) * (2 : ℚ) ^ (j - q).toNat * (d * (2 : ℚ) ^ q.toNat)
              = (m : ℚ) * ((2 : ℚ) ^ (j - q).toNat * ((2 : ℚ) ^ q.toNat / (2 : ℚ) ^ (-q).toNat))
                * d * (2 : ℚ) ^ (-q).toNat := by field_simp; ring
            _ ≤ _ := h3
        exact_mod_cast this
      have hKq : ((m * 2 ^ (j - q).toNat : Nat) : ℚ)
          ≤ ((rne (n * 2 ^ (-q).toNat) (d * 2 ^ q.toNat) : Nat) : ℚ) := by exact_mod_cast hK
      calc (m : ℚ) * (2 : ℚ) ^ j = ((m * 2 ^ (j - q).toNat : Nat) : ℚ) * (2 : ℚ) ^ q := by
            rw [hscale]; push_cast; ring
        _ ≤ _ := mul_le_mul_of_nonneg_right hKq (le_of_lt (two_zpow_pos _))
    · have hqe : max (ilog2 n d - 52) (-1074) = ilog2 n d - 52 := by
        rcases le_total (ilog2 n d - 52) (-1074) with h1 | h1
        · rw [max_eq_right h1] at hq; omega
        · exact max_eq_left h1
      rw [hqe] at hq ⊢
      generalize hqdef : ilog2 n d - 52 = q at hq ⊢
      have heq : ilog2 n d = q + 52 := by omega
      rw [heq] at e1
      have hA : (0 : ℚ) < (2 : ℚ) ^ (-q).toNat := pow_pos (by norm_num) _
      have hB : (0 : ℚ) < (2 : ℚ) ^ q.toNat := pow_pos (by norm_num) _
      have hsplit := two_zpow_split q
      have hK : 2 ^ 52 ≤ rne (n * 2 ^ (-q).toNat) (d * 2 ^ q.toNat) := by
        apply le_rne _ _ _ (Nat.mul_pos hd (pow_pos (by norm_num) _))
        have : ((2 ^ 52 * (d * 2 ^ q.toNat) : Nat) : ℚ) ≤ ((n * 2 ^ (-q).toNat : Nat) : ℚ) := by
          push_cast
          rw [le_div_iff₀ hdq, zpow_add₀ (by norm_num : (2 : ℚ) ≠ 0), hsplit] at e1
          have h3 := mul_le_mul_of_nonneg_right e1 (le_of_lt hA)
          calc (2 : ℚ) ^ 52 * (d * (2 : ℚ) ^ q.toNat)
              = (2 : ℚ) ^ q.toNat / (2 : ℚ) ^ (-q).toNat * (2 : ℚ) ^ (52 : Int) * d
                * (2 : ℚ) ^ (-q).toNat := by
                  have : ((2 : ℚ) ^ (52 : Int)) = (2 : ℚ) ^ 52 := by norm_num
                  rw [this]; field_simp; ring
            _ ≤ _ := h3
        exact_mod_cast this
      have hKq : (((2 ^ 52 : Nat)) : ℚ)
          ≤ ((rne (n * 2 ^ (-q).toNat) (d * 2 ^ q.toNat) : Nat) : ℚ) := by exact_mod_cast hK
      have hmq : (m : ℚ) ≤ (2 : ℚ) ^ (53 : Int) := by
        have : ((m : Nat) : ℚ) ≤ ((2 ^ 53 : Nat) : ℚ) := by exact_mod_cast (le_of_lt hm)
        have h2 : ((2 : ℚ) ^ (53 : Int)) = ((2 ^ 53 : Nat) : ℚ) := by norm_num
        rw [h2]; exact this
      calc (m : ℚ) * (2 : ℚ) ^ j ≤ (2 : ℚ) ^ (53 : Int) * (2 : ℚ) ^ j :=
            mul_le_mul_of_nonneg_right hmq (le_of_lt (two_zpow_pos _))
        _ = (2 : ℚ) ^ (53 + j) := by rw [← zpow_add₀ (by norm_num : (2 : ℚ) ≠ 0)]
        _ ≤ (2 : ℚ) ^ (52 + q) := two_zpow_le (by omega)
        _ = (((2 ^ 52 : Nat)) : ℚ) * (2 : ℚ) ^ q := by
            rw [zpow_add₀ (by norm_num : (2 : ℚ) ≠ 0)]; norm_num
        _ ≤ _ := mul_le_mul_of_nonneg_right hKq (le_of_lt (two_zpow_pos _))

theorem toRat_neg (x : Float64) : toRat (neg x) = -toRat x := by
  simp [toRat, neg]

theorem m_pos_of_toRat_pos (x : Float64) (h : 0 < toRat x) : 0 < x.m := by
  unfold toRat at h
  have h2 := two_zpow_pos x.e
  by_contra hc
  have h3 : (x.m : ℚ) ≤ 0 := by exact_mod_cast (not_lt.mp hc)
  have := mul_nonpos_of_nonpos_of_nonneg h3 (le_of_lt h2)
  linarith

theorem ofInt_nonneg_eq (i : Int) (h : 0 ≤ i) : ofInt i = roundNat i.natAbs 1 := by
  unfold ofInt
  rw [if_neg (by omega)]

theorem natAbs_cast_rat (i : Int) (h : 0 ≤ i) : ((i.natAbs : Nat) : ℚ) = (i : ℚ) := by
  have h1 : ((i.natAbs : Nat) : Int) = i := Int.natAbs_of_nonneg h
  have h2 : (((i.natAbs : Nat) : Int) : ℚ) = (i : ℚ) := by rw [h1]
  rw [← h2, Int.cast_natCast]

/-- Integers below `2^53` convert exactly. -/
theorem toRat_ofInt (i : Int) (h0 : 0 ≤ i) (h1 : i < 2 ^ 53) : toRat (ofInt i) = (i : ℚ) := by
  rw [ofInt_nonneg_eq i h0]
  have hm : i.natAbs < 2 ^ 53 := by omega
  have hv : ((i.natAbs : Nat) : ℚ) / ((1 : Nat) : ℚ) = (i.natAbs : ℚ) * (2 : ℚ) ^ (0 : Int) := by
    simp
  have u := roundNat_le i.natAbs 1 i.natAbs 0 (by norm_num) hm (by norm_num) (le_of_eq hv)
  have l := le_roundNat i.natAbs 1 i.natAbs 0 (by norm_num) hm (by norm_num) (le_of_eq hv.symm)
  have := le_antisymm u l
  rw [this, natAbs_cast_rat i h0]
  simp

theorem toRat_ofInt_neg (i : Int) (h : i < 0) : toRat (ofInt i) ≤ -1 := by
  unfold ofInt
  rw [if_pos h, toRat_neg]
  have hv : ((1 : Nat) : ℚ) * (2 : ℚ) ^ (0 : Int) ≤ ((i.natAbs : Nat) : ℚ) / ((1 : Nat) : ℚ) := by
    have : 1 ≤ i.natAbs := by omega
    have : ((1 : Nat) : ℚ) ≤ ((i.natAbs : Nat) : ℚ) := by exact_mod_cast this
    simpa using this
  have l := le_roundNat i.natAbs 1 1 0 (by norm_num) (by norm_num) (by norm_num) hv
  norm_num at l
  linarith

theorem toRat_ofInt_large (i : Int) (h : 2 ^ 53 ≤ i) : (2 : ℚ) ^ 53 ≤ toRat (ofInt i) := by
  rw [ofInt_nonneg_eq i (by omega)]
  have hv : (((2 ^ 52 : Nat)) : ℚ) * (2 : ℚ) ^ (1 : Int) ≤ ((i.natAbs : Nat) : ℚ) / ((1 : Nat) : ℚ) := by
    rw [natAbs_cast_rat i (by omega)]
    have : ((2 ^ 53 : Int) : ℚ) ≤ (i : ℚ) := by exact_mod_cast h
    norm_num at this ⊢
    linarith
  have l := le_roundNat i.natAbs 1 (2 ^ 52) 1 (by norm_num) (by norm_num) (by norm_num) hv
  norm_num at l ⊢
  linarith

theorem ofInt_m_nonneg (i : Int) (h : 0 ≤ i) : 0 ≤ (ofInt i).m := by
  rw [ofInt_nonneg_eq i h]
  exact roundNat_m_nonneg _ _

/-- The comparison decides the order of the exact values. -/
theorem le_iff (a b : Float64) : le a b = true ↔ toRat a ≤ toRat b := by
  unfold le toRat
  rw [decide_eq_true_iff]
  have hs := two_zpow_split (a.e - b.e)
  have hneg : -(a.e - b.e) = b.e - a.e := by ring
  rw [hneg] at hs
  have hX : (0 : ℚ) < (2 : ℚ) ^ (a.e - b.e).toNat := pow_pos (by norm_num) _
  have hY : (0 : ℚ) < (2 : ℚ) ^ (b.e - a.e).toNat := pow_pos (by norm_num) _
  have hbe := two_zpow_pos b.e
  have hae : (2 : ℚ) ^ a.e = (2 : ℚ) ^ b.e * ((2 : ℚ) ^ (a.e - b.e).toNat / (2 : ℚ) ^ (b.e - a.e).toNat) := by
    rw [← hs, ← zpow_add₀ (by norm_num : (2 : ℚ) ≠ 0)]; congr 1; ring
  rw [hae]
  have cast : (a.m * 2 ^ (a.e - b.e).toNat ≤ b.m * 2 ^ (b.e - a.e).toNat) ↔
      ((a.m : ℚ) * (2 : ℚ) ^ (a.e - b.e).toNat ≤ (b.m : ℚ) * (2 : ℚ) ^ (b.e - a.e).toNat) := by
    constructor
    · intro h; exact_mod_cast h
    · intro h; exact_mod_cast h
  rw [cast]
  have e1 : (a.m : ℚ) * ((2 : ℚ) ^ b.e * ((2 : ℚ) ^ (a.e - b.e).toNat / (2 : ℚ) ^ (b.e - a.e).toNat))
      = ((a.m : ℚ) * (2 : ℚ) ^ (a.e - b.e).toNat) * ((2 : ℚ) ^ b.e / (2 : ℚ) ^ (b.e - a.e).toNat) := by
    field_simp; ring
  have e2 : (b.m : ℚ) * (2 : ℚ) ^ b.e
      = ((b.m : ℚ) * (2 : ℚ) ^ (b.e - a.e).toNat) * ((2 : ℚ) ^ b.e / (2 : ℚ) ^ (b.e - a.e).toNat) := by
    field_simp; ring
  rw [e1, e2]
  have hpos : (0 : ℚ) < (2 : ℚ) ^ b.e / (2 : ℚ) ^ (b.e - a.e).toNat := div_pos hbe hY
  exact (mul_le_mul_right hpos).symm

theorem add_ratio (a b : Float64) (ha : 0 ≤ a.m) (hb : 0 ≤ b.m) :
    add a b = roundNat
        ((a.m * 2 ^ (a.e - min a.e b.e).toNat + b.m * 2 ^ (b.e - min a.e b.e).toNat).natAbs
          * 2 ^ (min a.e b.e).toNat) (2 ^ (-(min a.e b.e)).toNat) ∧
    (((a.m * 2 ^ (a.e - min a.e b.e).toNat + b.m * 2 ^ (b.e - min a.e b.e).toNat).natAbs
          * 2 ^ (min a.e b.e).toNat : Nat) : ℚ) / ((2 ^ (-(min a.e b.e)).toNat : Nat) : ℚ)
      = toRat a + toRat b := by
  have hs : 0 ≤ a.m * 2 ^ (a.e - min a.e b.e).toNat + b.m * 2 ^ (b.e - min a.e b.e).toNat :=
    add_nonneg (mul_nonneg ha (by positivity)) (mul_nonneg hb (by positivity))
  constructor
  · unfold add
    simp only []
    rw [if_neg (by omega)]
  · generalize hsdef : a.m * 2 ^ (a.e - min a.e b.e).toNat + b.m * 2 ^ (b.e - min a.e b.e).toNat = s at hs
    have hsq : (s : ℚ) = (a.m : ℚ) * (2 : ℚ) ^ (a.e - min a.e b.e).toNat
        + (b.m : ℚ) * (2 : ℚ) ^ (b.e - min a.e b.e).toNat := by
      rw [← hsdef]; push_cast; ring
    have h1 := zpow_scale (min a.e b.e) a.e (min_le_left _ _)
    have h2 := zpow_scale (min a.e b.e) b.e (min_le_right _ _)
    have h3 := two_zpow_split (min a.e b.e)
    push_cast at h1 h2
    push_cast
    rw [natAbs_cast_rat s hs]
    unfold toRat
    rw [h1, h2, hsq]
    generalize min a.e b.e = e at *
    have hA : (0 : ℚ) < (2 : ℚ) ^ (-e).toNat := pow_pos (by norm_num) _
    rw [h3]
    field_simp
    ring

theorem add_le (a b : Float64) (ha : 0 ≤ a.m) (hb : 0 ≤ b.m) (m : Nat) (j : Int)
    (hm : m < 2 ^ 53) (hj : -1074 ≤ j) (h : toRat a + toRat b ≤ (m : ℚ) * (2 : ℚ) ^ j) :
    toRat (add a b) ≤ (m : ℚ) * (2 : ℚ) ^ j := by
  obtain ⟨e1, e2⟩ := add_ratio a b ha hb
  rw [e1]
  exact roundNat_le _ _ m j (pow_pos (by norm_num) _) hm hj (by rw [e2]; exact h)

theorem le_add (a b : Float64) (ha : 0 ≤ a.m) (hb : 0 ≤ b.m) (m : Nat) (j : Int)
    (hm : m < 2 ^ 53) (hj : -1074 ≤ j) (h : (m : ℚ) * (2 : ℚ) ^ j ≤ toRat a + toRat b) :
    (m : ℚ) * (2 : ℚ) ^ j ≤ toRat (add a b) := by
  obtain ⟨e1, e2⟩ := add_ratio a b ha hb
  rw [e1]
  exact le_roundNat _ _ m j (pow_pos (by norm_num) _) hm hj (by rw [e2]; exact h)

theorem div_ratio (a b : Float64) (ha : 0 ≤ a.m) (hb : 0 < b.m) :
    div a b = roundNat (a.m.natAbs * 2 ^ (a.e - b.e).toNat) (b.m.natAbs * 2 ^ (b.e - a.e).toNat) ∧
    0 < b.m.natAbs * 2 ^ (b.e - a.e).toNat ∧
    ((a.m.natAbs * 2 ^ (a.e - b.e).toNat : Nat) : ℚ) / ((b.m.natAbs * 2 ^ (b.e - a.e).toNat : Nat) : ℚ)
      = toRat a / toRat b := by
  refine ⟨?_, ?_, ?_⟩
  · unfold div
    have h1 : decide (a.m < 0) = false := decide_eq_false (by omega)
    have h2 : decide (b.m < 0) = false := decide_eq_false (by omega)
    simp only [h1, h2]
    simp
  · exact Nat.mul_pos (by omega) (pow_pos (by norm_num) _)
  · push_cast
    rw [natAbs_cast_rat a.m ha, natAbs_cast_rat b.m (le_of_lt hb)]
    unfold toRat
    have hs := two_zpow_split (a.e - b.e)
    have hneg : -(a.e - b.e) = b.e - a.e := by ring
    rw [hneg] at hs
    have hae : (2 : ℚ) ^ a.e = (2 : ℚ) ^ b.e * ((2 : ℚ) ^ (a.e - b.e).toNat / (2 : ℚ) ^ (b.e - a.e).toNat) := by
      rw [← hs, ← zpow_add₀ (by norm_num : (2 : ℚ) ≠ 0)]; congr 1; ring
    rw [hae]
    have hbq : (b.m : ℚ) ≠ 0 := by
      have : (0 : ℚ) < (b.m : ℚ) := by exact_mod_cast hb
      exact ne_of_gt this
    have hbe : (2 : ℚ) ^ b.e ≠ 0 := ne_of_gt (two_zpow_pos _)
    have hY : (2 : ℚ) ^ (b.e - a.e).toNat ≠ 0 := ne_of_gt (pow_pos (by norm_num) _)
    field_simp
    ring

theorem div_le (a b : Float64) (ha : 0 ≤ a.m) (hb : 0 < b.m) (m : Nat) (j : Int)
    (hm : m < 2 ^ 53) (hj : -1074 ≤ j) (h : toRat a / toRat b ≤ (m : ℚ) * (2 : ℚ) ^ j) :
    toRat (div a b) ≤ (m : ℚ) * (2 : ℚ) ^ j := by
  obtain ⟨e1, e2, e3⟩ := div_ratio a b ha hb
  rw [e1]
  exact roundNat_le _ _ m j e2 hm hj (by rw [e3]; exact h)

theorem le_div (a b : Float64) (ha : 0 ≤ a.m) (hb : 0 < b.m) (m : Nat) (j : Int)
    (hm : m < 2 ^ 53) (hj : -1074 ≤ j) (h : (m : ℚ) * (2 : ℚ) ^ j ≤ toRat a / toRat b) :
    (m : ℚ) * (2 : ℚ) ^ j ≤ toRat (div a b) := by
  obtain ⟨e1, e2, e3⟩ := div_ratio a b ha hb
  rw [e1]
  exact le_roundNat _ _ m j e2 hm hj (by rw [e3]; exact h)

theorem div_m_nonneg (a b : Float64) (ha : 0 ≤ a.m) (hb : 0 < b.m) : 0 ≤ (div a b).m := by
  rw [(div_ratio a b ha hb).1]
  exact roundNat_m_nonneg _ _

end F64

/-! ## Duration.Hours -/

theorem Hours_eq (d : Int) (h0 : 0 ≤ d) :
    Hours d = F64.add (F64.ofInt (d / 3600000000000))
      (F64.div (F64.ofInt (d % 3600000000000)) (F64.ofInt 3600000000000)) := by
  unfold Hours Hour
  simp only []
  rw [Int.tdiv_eq_ediv h0 (by norm_num), Int.tmod_eq_emod h0 (by norm_num)]

theorem toRat_divisor : F64.toRat (F64.ofInt 3600000000000) = 3600000000000 := by
  rw [F64.toRat_ofInt _ (by norm_num) (by norm_num)]
  norm_num

theorem divisor_m_pos : 0 < (F64.ofInt 3600000000000).m :=
  F64.m_pos_of_toRat_pos _ (by rw [toRat_divisor]; norm_num)

theorem frac_m_nonneg (r : Int) (h0 : 0 ≤ r) :
    0 ≤ (F64.div (F64.ofInt r) (F64.ofInt 3600000000000)).m :=
  F64.div_m_nonneg _ _ (F64.ofInt_m_nonneg r h0) divisor_m_pos

theorem frac_le_one (r : Int) (h0 : 0 ≤ r) (h1 : r < 3600000000000) :
    F64.toRat (F64.div (F64.ofInt r) (F64.ofInt 3600000000000)) ≤ 1 := by
  have h := F64.div_le (F64.ofInt r) (F64.ofInt 3600000000000) (F64.ofInt_m_nonneg r h0)
    divisor_m_pos 1 0 (by norm_num) (by norm_num)
    (by
      rw [toRat_divisor, F64.toRat_ofInt r h0 (by omega)]
      have : (r : ℚ) ≤ 3600000000000 := by exact_mod_cast (le_of_lt h1)
      rw [div_le_iff₀ (by norm_num)]
      norm_num
      linarith)
  simpa using h

theorem frac_zero :
    F64.toRat (F64.div (F64.ofInt 0) (F64.ofInt 3600000000000)) ≤ 0 := by
  have h := F64.div_le (F64.ofInt 0) (F64.ofInt 3600000000000) (F64.ofInt_m_nonneg 0 (le_refl 0))
    divisor_m_pos 0 0 (by norm_num) (by norm_num)
    (by
      rw [toRat_divisor, F64.toRat_ofInt 0 (le_refl 0) (by norm_num)]
      norm_num)
  simpa using h

theorem frac_nonneg (r : Int) (h0 : 0 ≤ r) :
    0 ≤ F64.toRat (F64.div (F64.ofInt r) (F64.ofInt 3600000000000)) := by
  rw [(F64.div_ratio _ _ (F64.ofInt_m_nonneg r h0) divisor_m_pos).1]
  exact F64.roundNat_nonneg _ _

theorem frac_ge (r : Int) (h0 : 2000 ≤ r) (h1 : r < 3600000000000) :
    (2 : ℚ) ^ (-31 : Int) ≤ F64.toRat (F64.div (F64.ofInt r) (F64.ofInt 3600000000000)) := by
  have h := F64.le_div (F64.ofInt r) (F64.ofInt 3600000000000)
    (F64.ofInt_m_nonneg r (by omega)) divisor_m_pos 1 (-31) (by norm_num) (by norm_num)
    (by
      rw [toRat_divisor, F64.toRat_ofInt r (by omega) (by omega)]
      have : (2000 : ℚ) ≤ (r : ℚ) := by exact_mod_cast h0
      rw [le_div_iff₀ (by norm_num)]
      norm_num
      linarith)
  simpa using h

/-- A duration of at most `T` hours reads as at most `T`. -/
theorem Hours_le (d T : Int) (h0 : 0 ≤ d) (hT : T < 2 ^ 53) (h : d ≤ T * 3600000000000) :
    F64.toRat (Hours d) ≤ (T : ℚ) := by
  have hT0 : 0 ≤ T := by omega
  have hq0 : 0 ≤ d / 3600000000000 := by omega
  have hqT : d / 3600000000000 ≤ T := by omega
  have hr0 : 0 ≤ d % 3600000000000 := by omega
  have hr1 : d % 3600000000000 < 3600000000000 := by omega
  rw [Hours_eq d h0]
  have key := F64.add_le (F64.ofInt (d / 3600000000000))
    (F64.div (F64.ofInt (d % 3600000000000)) (F64.ofInt 3600000000000))
    (F64.ofInt_m_nonneg _ hq0) (frac_m_nonneg _ hr0) T.natAbs 0 (by omega) (by norm_num)
    (by
      rw [F64.toRat_ofInt _ hq0 (by omega), F64.natAbs_cast_rat T hT0]
      norm_num
      rcases lt_or_eq_of_le hqT with hlt | heq
      · have h1 : d / 3600000000000 + 1 ≤ T := by omega
        have h2 : ((d / 3600000000000 : Int) : ℚ) + 1 ≤ (T : ℚ) := by exact_mod_cast h1
        have h3 := frac_le_one _ hr0 hr1
        linarith
      · have hz : d % 3600000000000 = 0 := by omega
        rw [hz, heq]
        have := frac_zero
        linarith)
  rw [F64.natAbs_cast_rat T hT0] at key
  simpa using key

/-- A duration at least two microseconds beyond `T` hours reads as more than `T`. -/
theorem Hours_gt (d T : Int) (hT0 : 0 ≤ T) (hd : d ≤ 2 ^ 63 - 1)
    (h : T * 3600000000000 + 2000 ≤ d) : (T : ℚ) < F64.toRat (Hours d) := by
  have h0 : 0 ≤ d := by omega
  have hq0 : 0 ≤ d / 3600000000000 := by omega
  have hqT : T ≤ d / 3600000000000 := by omega
  have hqmax : d / 3600000000000 < 2 ^ 22 := by omega
  have hr0 : 0 ≤ d % 3600000000000 := by omega
  have hr1 : d % 3600000000000 < 3600000000000 := by omega
  rw [Hours_eq d h0]
  rcases lt_or_eq_of_le hqT with hlt | heq
  · have key := F64.le_add (F64.ofInt (d / 3600000000000))
      (F64.div (F64.ofInt (d % 3600000000000)) (F64.ofInt 3600000000000))
      (F64.ofInt_m_nonneg _ hq0) (frac_m_nonneg _ hr0) (d / 3600000000000).natAbs 0
      (by omega) (by norm_num)
      (by
        rw [F64.toRat_ofInt _ hq0 (by omega), F64.natAbs_cast_rat _ hq0]
        have := frac_nonneg _ hr0
        norm_num
        linarith)
    rw [F64.natAbs_cast_rat _ hq0] at key
    have h2 : (T : ℚ) < ((d / 3600000000000 : Int) : ℚ) := by exact_mod_cast hlt
    norm_num at key
    linarith
  · have hr2 : 2000 ≤ d % 3600000000000 := by omega
    have key := F64.le_add (F64.ofInt (d / 3600000000000))
      (F64.div (F64.ofInt (d % 3600000000000)) (F64.ofInt 3600000000000))
      (F64.ofInt_m_nonneg _ hq0) (frac_m_nonneg _ hr0) (T * 2 ^ 31 + 1).natAbs (-31)
      (by omega) (by norm_num)
      (by
        rw [F64.toRat_ofInt _ hq0 (by omega), F64.natAbs_cast_rat _ (by omega), ← heq]
        have := frac_ge _ hr2 hr1
        push_cast
        have e : ((T : ℚ) * 2147483648 + 1) * (2 : ℚ) ^ (-31 : Int)
            = (T : ℚ) + (2 : ℚ) ^ (-31 : Int) := by
          norm_num
          ring
        rw [e]
        linarith)
    rw [F64.natAbs_cast_rat _ (by omega)] at key
    push_cast at key
    have e : ((T : ℚ) * 2147483648 + 1) * (2 : ℚ) ^ (-31 : Int)
        = (T : ℚ) + (2 : ℚ) ^ (-31 : Int) := by
      norm_num
      ring
    rw [e] at key
    have := F64.two_zpow_pos (-31)
    linarith

theorem Hours_nonneg (d : Int) (h0 : 0 ≤ d) : 0 ≤ F64.toRat (Hours d) := by
  rw [Hours_eq d h0]
  rw [(F64.add_ratio _ _ (F64.ofInt_m_nonneg _ (by omega)) (frac_m_nonneg _ (by omega))).1]
  exact F64.roundNat_nonneg _ _

/-! ## filterByTS -/

theorem wrapInt64_id (x : Int) (h1 : minDuration ≤ x) (h2 : x ≤ maxDuration) : wrapInt64 x = x := by
  unfold minDuration at h1
  unfold maxDuration at h2
  unfold wrapInt64
  omega

theorem Abs_Since (now t : Int) (h : |now - t| ≤ maxDuration) : Abs (Since now t) = |now - t| := by
  obtain ⟨h1, h2⟩ := abs_le.mp h
  unfold maxDuration at h1 h2
  unfold Abs Since Sub minDuration maxDuration
  rcases abs_cases (now - t) with ⟨e, _⟩ | ⟨e, _⟩
  · rw [e]
    split_ifs <;> omega
  · rw [e]
    split_ifs <;> omega

theorem filterByTS_eq (now ts ttl : Int)
    (hts : minDuration ≤ ts * Millisecond ∧ ts * Millisecond ≤ maxDuration)
    (httl : minDuration ≤ ttl * 24 ∧ ttl * 24 ≤ maxDuration)
    (hd : |now - ts * Millisecond| ≤ maxDuration) (h0 : ttl ≠ 0) :
    filterByTS now ts ttl = F64.le (Hours |now - ts * Millisecond|) (F64.ofInt (ttl * 24)) := by
  unfold filterByTS
  rw [if_neg h0]
  simp only [Unix]
  rw [wrapInt64_id _ hts.1 hts.2, wrapInt64_id _ httl.1 httl.2, Abs_Since _ _ hd]

theorem filterByTS_inside (now ts ttl : Int)
    (hts : minDuration ≤ ts * Millisecond ∧ ts * Millisecond ≤ maxDuration)
    (httl : minDuration ≤ ttl * 24 ∧ ttl * 24 ≤ maxDuration)
    (hd : |now - ts * Millisecond| ≤ maxDuration) (h0 : ttl ≠ 0)
    (h : |now - ts * Millisecond| ≤ ttl * 24 * Hour) : filterByTS now ts ttl = true := by
  rw [filterByTS_eq now ts ttl hts httl hd h0, F64.le_iff]
  have hnn : 0 ≤ |now - ts * Millisecond| := abs_nonneg _
  generalize |now - ts * Millisecond| = d at hd h hnn
  unfold maxDuration at hd
  unfold Hour at h
  rcases lt_or_le (ttl * 24) (2 ^ 53) with hs | hl
  · have h1 := Hours_le d (ttl * 24) hnn hs h
    have hT0 : 0 ≤ ttl * 24 := by omega
    rw [F64.toRat_ofInt _ hT0 hs]
    exact h1
  · have h1 := Hours_le d 2562048 hnn (by norm_num) (by omega)
    have h2 := F64.toRat_ofInt_large _ hl
    have h3 : ((2562048 : Int) : ℚ) ≤ (2 : ℚ) ^ 53 := by norm_num
    linarith

theorem filterByTS_outside (now ts ttl : Int)
    (hts : minDuration ≤ ts * Millisecond ∧ ts * Millisecond ≤ maxDuration)
    (httl : minDuration ≤ ttl * 24 ∧ ttl * 24 ≤ maxDuration)
    (hd : |now - ts * Millisecond| ≤ maxDuration)
    (h : ttl * 24 * Hour + 2000 ≤ |now - ts * Millisecond|) : filterByTS now ts ttl = false := by
  by_cases h0 : ttl = 0
  · unfold filterByTS
    rw [if_pos h0]
  · rw [filterByTS_eq now ts ttl hts httl hd h0]
    rw [Bool.eq_false_iff]
    intro hc
    rw [F64.le_iff] at hc
    have hnn : 0 ≤ |now - ts * Millisecond| := abs_nonneg _
    generalize |now - ts * Millisecond| = d at hd h hnn hc
    unfold maxDuration at hd
    unfold Hour at h
    rcases lt_or_le (ttl * 24) 0 with hneg | hpos
    · have h1 := F64.toRat_ofInt_neg _ hneg
      have h2 := Hours_nonneg d hnn
      linarith
    · have h1 := Hours_gt d (ttl * 24) hpos hd h
      rw [F64.toRat_ofInt _ hpos (by omega)] at hc
      linarith

/-! ## filterAccounts -/

theorem HasPrefix_iff (s pre : String) : HasPrefix s pre = true ↔ pre.data <+: s.data := by
  unfold HasPrefix
  exact List.isPrefixOf_iff_prefix

theorem filterByName_iff (prefixes : List String) (name : String) :
    filterByName prefixes name = true ↔ ∃ p ∈ prefixes, p.data <+: name.data := by
  induction prefixes with
  | nil => simp [filterByName]
  | cons part rest ih =>
    unfold filterByName
    by_cases h : HasPrefix name part = true
    · have h2 := (HasPrefix_iff name part).mp h
      simp only [h, if_true, List.mem_cons, true_iff]
      exact ⟨part, Or.inl rfl, h2⟩
    · have h2 : ¬ part.data <+: name.data := fun hc => h ((HasPrefix_iff name part).mpr hc)
      rw [if_neg h, ih]
      constructor
      · rintro ⟨p, hp, hpre⟩
        exact ⟨p, List.mem_cons_of_mem _ hp, hpre⟩
      · rintro ⟨p, hp, hpre⟩
        rcases List.mem_cons.mp hp with h3 | h3
        · subst h3; exact absurd hpre h2
        · exact ⟨p, h3, hpre⟩

theorem filterByName_eq_false_iff (prefixes : List String) (name : String) :
    filterByName prefixes name = false ↔ ∀ p ∈ prefixes, ¬ p.data <+: name.data := by
  rw [← Bool.not_eq_true, filterByName_iff]
  constructor
  · intro h p hp hpre
    exact h ⟨p, hp, hpre⟩
  · rintro h ⟨p, hp, hpre⟩
    exact h p hp hpre

theorem eligible_eq (prefixes : List String) (now ttl : Int) (a : Account) :
    eligible prefixes now ttl a
      = (!(a.IsGuest || a.Admin || a.Deactivated || a.Locked)
          && !(filterByName prefixes a.Name) && !(filterByTS now a.CreationTs ttl)) := by
  unfold eligible
  have h : decide (∀ p ∈ prefixes, ¬ p.data <+: a.Name.data) = !(filterByName prefixes a.Name) := by
    cases hn : filterByName prefixes a.Name with
    | false =>
      have := (filterByName_eq_false_iff prefixes a.Name).mp hn
      simpa using this
    | true =>
      obtain ⟨p, hp, hpre⟩ := (filterByName_iff prefixes a.Name).mp hn
      simp only [Bool.not_true, decide_eq_false_iff_not]
      intro hc
      exact hc p hp hpre
  rw [h]

theorem filterAccounts_loop (prefixes : List String) (now ttl : Int) (accounts : List Account) :
    ∀ acc : List Account,
      accounts.foldl
        (fun filtered account =>
          if account.IsGuest || account.Admin || account.Deactivated || account.Locked then filtered
          else if filterByName prefixes account.Name then filtered
          else if filterByTS now account.CreationTs ttl then filtered
          else filtered ++ [account])
        acc = acc ++ accounts.filter (eligible prefixes now ttl) := by
  induction accounts with
  | nil => intro acc; simp
  | cons a rest ih =>
    intro acc
    rw [List.foldl_cons, ih]
    by_cases h1 : (a.IsGuest || a.Admin || a.Deactivated || a.Locked) = true
    · have he : eligible prefixes now ttl a = false := by rw [eligible_eq]; simp [h1]
      rw [if_pos h1, List.filter_cons_of_neg (by simp [he])]
    · by_cases h2 : filterByName prefixes a.Name = true
      · have he : eligible prefixes now ttl a = false := by rw [eligible_eq]; simp [h2]
        rw [if_neg h1, if_pos h2, List.filter_cons_of_neg (by simp [he])]
      · by_cases h3 : filterByTS now a.CreationTs ttl = true
        · have he : eligible prefixes now ttl a = false := by rw [eligible_eq]; simp [h3]
          rw [if_neg h1, if_neg h2, if_pos h3, List.filter_cons_of_neg (by simp [he])]
        · have he : eligible prefixes now ttl a = true := by
            simp only [Bool.not_eq_true] at h1 h2 h3
            rw [eligible_eq]
            simp [h1, h2, h3]
          rw [if_neg h1, if_neg h2, if_neg h3, List.filter_cons_of_pos he]
          simp

theorem mem_filterAccounts (prefixes : List String) (now ttl : Int) (accounts : List Account)
    (a : Account) :
    a ∈ filterAccounts prefixes now accounts ttl ↔ a ∈ accounts ∧ eligible prefixes now ttl a = true := by
  unfold filterAccounts
  rw [filterAccounts_loop, List.nil_append, List.mem_filter]

/-! ## Eligibility filter: the claims -/

/-- C1: an account whose IsGuest, Admin, Deactivated or Locked flag is set never appears
in the result of `filterAccounts`, for every prefix list, clock reading, account list
and ttl, whatever the name and creation timestamp of the account. -/
theorem filterAccounts_excludes_flagged (prefixes : List String) (now : Int)
    (accounts : List Account) (ttl : Int) (a : Account)
    (h : a.IsGuest = true ∨ a.Admin = true ∨ a.Deactivated = true ∨ a.Locked = true) :
    a ∉ filterAccounts prefixes now accounts ttl := by
  intro hm
  rw [mem_filterAccounts] at hm
  obtain ⟨_, he⟩ := hm
  rw [eligible_eq] at he
  rcases h with h | h | h | h <;> simp [h] at he

/-- Witness for C1: a locked account with an ordinary name, created in 2009, is dropped
at ttl 30. -/
theorem filterAccounts_excludes_flagged_witness :
    (⟨"@alice:example.org", false, false, false, true, 1250000000000, 0⟩ : Account)
      ∉ filterAccounts omitPrefixes 1700000000000000000
          [⟨"@alice:example.org", false, false, false, true, 1250000000000, 0⟩,
           ⟨"@bob:example.org", false, false, false, false, 1250000000000, 0⟩] 30 :=
  filterAccounts_excludes_flagged omitPrefixes 1700000000000000000 _ 30 _
    (Or.inr (Or.inr (Or.inr rfl)))

/-- C2: for every environment whose host and token are not empty and whose ttl is
positive, `loadConfig` succeeds and leaves as exclusion list the built-in list followed
by the operator's list `env.Slice("prefixes")`; and `filterAccounts` run with that list
omits every account whose name starts with a built-in prefix or with one of the
operator's prefixes, whatever its flags, its creation timestamp and the ttl. -/
theorem loadConfig_extends_prefixes_and_filter_omits (env : Env)
    (hHost : env.str "host" ≠ "") (hToken : env.str "token" ≠ "") (hTTL : 0 < env.int "ttl") :
    Except.map Prod.snd (loadConfig env omitPrefixes)
        = Except.ok (omitPrefixes ++ env.slice "prefixes") ∧
    ∀ (now : Int) (accounts : List Account) (ttl : Int) (a : Account) (p : String),
      (p ∈ omitPrefixes ∨ p ∈ env.slice "prefixes") → p.data <+: a.Name.data →
        a ∉ filterAccounts (omitPrefixes ++ env.slice "prefixes") now accounts ttl := by
  constructor
  · unfold loadConfig New
    simp only []
    rw [if_neg hHost, if_neg hToken, if_neg (by omega)]
    rfl
  · intro now accounts ttl a p hp hpre hm
    rw [mem_filterAccounts] at hm
    obtain ⟨_, he⟩ := hm
    have hn : filterByName (omitPrefixes ++ env.slice "prefixes") a.Name = true :=
      (filterByName_iff _ _).mpr ⟨p, List.mem_append.mpr hp, hpre⟩
    rw [eligible_eq] at he
    simp [hn] at he

/-- Witness for C2: under `exampleEnv`, whose operator list is `@mybot:`, both
`@mybot:example.org` (operator prefix) and `@discordbot:example.org` (built-in prefix),
created 400 days before the clock reading, are omitted at ttl 30. -/
theorem loadConfig_extends_prefixes_and_filter_omits_witness :
    (⟨"@mybot:example.org", false, false, false, false, 1665440000000, 0⟩ : Account)
      ∉ filterAccounts (omitPrefixes ++ exampleEnv.slice "prefixes") 1700000000000000000
          [⟨"@mybot:example.org", false, false, false, false, 1665440000000, 0⟩,
           ⟨"@discordbot:example.org", false, false, false, false, 1665440000000, 0⟩] 30 ∧
    (⟨"@discordbot:example.org", false, false, false, false, 1665440000000, 0⟩ : Account)
      ∉ filterAccounts (omitPrefixes ++ exampleEnv.slice "prefixes") 1700000000000000000
          [⟨"@mybot:example.org", false, false, false, false, 1665440000000, 0⟩,
           ⟨"@discordbot:example.org", false, false, false, false, 1665440000000, 0⟩] 30 :=
  ⟨(loadConfig_extends_prefixes_and_filter_omits exampleEnv (by decide) (by decide) (by decide)).2
      1700000000000000000 _ 30 _ "@mybot:" (Or.inr (by decide)) (by decide),
   (loadConfig_extends_prefixes_and_filter_omits exampleEnv (by decide) (by decide) (by decide)).2
      1700000000000000000 _ 30 _ "@discordbot:" (Or.inl (by decide)) (by decide)⟩

/-- C3: `filterAccounts` returns exactly the accounts of its input for which all three
exclusion checks fail, in input order and unaltered: the result is the input filtered
by `eligible`, a subsequence of the input, and an account is in it exactly when it is in
the input, none of its four flags is set, its name starts with no excluded prefix and
`filterByTS` is false for its creation timestamp. -/
theorem filterAccounts_eq_filter_eligible (prefixes : List String) (now : Int)
    (accounts : List Account) (ttl : Int) :
    filterAccounts prefixes now accounts ttl = accounts.filter (eligible prefixes now ttl) ∧
    List.Sublist (filterAccounts prefixes now accounts ttl) accounts ∧
    ∀ a : Account, a ∈ filterAccounts prefixes now accounts ttl ↔
      (a ∈ accounts ∧ a.IsGuest = false ∧ a.Admin = false ∧ a.Deactivated = false
        ∧ a.Locked = false ∧ (∀ p ∈ prefixes, ¬ p.data <+: a.Name.data)
        ∧ filterByTS now a.CreationTs ttl = false) := by
  have h : filterAccounts prefixes now accounts ttl
      = accounts.filter (eligible prefixes now ttl) := by
    unfold filterAccounts
    rw [filterAccounts_loop, List.nil_append]
  refine ⟨h, ?_, ?_⟩
  · rw [h]; exact List.filter_sublist accounts
  · intro a
    rw [h, List.mem_filter]
    unfold eligible
    simp only [Bool.and_eq_true, Bool.not_eq_true', Bool.or_eq_false_iff, decide_eq_true_eq]
    tauto

/-- C4, counterexample: at ttl 365 an account created 365 days and one nanosecond
before the clock reading lies outside the window of 365×24 hours, but `filterByTS`
returns true (no product overflows). -/
theorem filterByTS_exact_window_counterexample :
    (minDuration ≤ 1700000000000 * Millisecond ∧ 1700000000000 * Millisecond ≤ maxDuration) ∧
    (minDuration ≤ (365 : Int) * 24 ∧ (365 : Int) * 24 ≤ maxDuration) ∧
    ¬ (filterByTS 1731536000000000001 1700000000000 365 = true ↔
        ((365 : Int) ≠ 0 ∧
          |1731536000000000001 - 1700000000000 * Millisecond| ≤ 365 * 24 * Hour)) := by
  refine ⟨by decide, by decide, ?_⟩
  intro h
  have h1 : filterByTS 1731536000000000001 1700000000000 365 = true := by decide!
  have h2 := (h.mp h1).2
  have h3 : (1731536000000000001 : Int) - 1700000000000 * Millisecond = 31536000000000001 := by
    decide
  rw [h3, abs_of_nonneg (by norm_num)] at h2
  exact absurd h2 (by decide)

/-- C4, amended: when `ts×10^6`, `ttl×24` and the difference `now − ts` fit in 64 bits,
`filterByTS` is false for ttl 0, true when ttl ≠ 0 and `|now − ts| ≤ ttl×24h`, and
false when `|now − ts| ≥ ttl×24h + 2µs`; in particular, for ttl > 0, an account
created `ttl×24h + 1s` ago is not excluded and one created `ttl×24h − 1s` ago is. -/
theorem filterByTS_retention_window (now ts ttl : Int)
    (hts : minDuration ≤ ts * Millisecond ∧ ts * Millisecond ≤ maxDuration)
    (httl : minDuration ≤ ttl * 24 ∧ ttl * 24 ≤ maxDuration)
    (hd : |now - ts * Millisecond| ≤ maxDuration) :
    (ttl = 0 → filterByTS now ts ttl = false) ∧
    (ttl ≠ 0 → |now - ts * Millisecond| ≤ ttl * 24 * Hour → filterByTS now ts ttl = true) ∧
    (ttl * 24 * Hour + 2000 ≤ |now - ts * Millisecond| → filterByTS now ts ttl = false) ∧
    (0 < ttl → now - ts * Millisecond = ttl * 24 * Hour + 1000000000 →
      filterByTS now ts ttl = false) ∧
    (0 < ttl → now - ts * Millisecond = ttl * 24 * Hour - 1000000000 →
      filterByTS now ts ttl = true) := by
  refine ⟨?_, ?_, ?_, ?_, ?_⟩
  · intro h0
    unfold filterByTS
    rw [if_pos h0]
  · intro h0 h
    exact filterByTS_inside now ts ttl hts httl hd h0 h
  · intro h
    exact filterByTS_outside now ts ttl hts httl hd h
  · intro hpos he
    apply filterByTS_outside now ts ttl hts httl hd
    rw [he]
    have : 0 ≤ ttl * 24 * Hour + 1000000000 := by unfold Hour; omega
    rw [abs_of_nonneg this]
    omega
  · intro hpos he
    apply filterByTS_inside now ts ttl hts httl hd (by omega)
    rw [he]
    have : 0 ≤ ttl * 24 * Hour - 1000000000 := by unfold Hour; omega
    rw [abs_of_nonneg this]
    omega

/-- Witness for C4: at ttl 30, an account created 40 days before the clock reading is
not excluded by age. -/
theorem filterByTS_retention_window_witness :
    filterByTS 1700000000000000000 1696544000000 30 = false :=
  (filterByTS_retention_window 1700000000000000000 1696544000000 30
    (by decide) (by decide)
    (by rw [abs_of_nonneg (by decide)]; decide)).2.2.1
    (by rw [abs_of_nonneg (by decide)]; decide)

/-- C5, counterexample: at ttl 30 an account whose creation timestamp lies one hour
after the clock reading is excluded by the age check. -/
theorem filterByTS_future_counterexample :
    (0 : Int) < 30 ∧ 1700000000000000000 < 1700003600000 * Millisecond ∧
    ¬ (filterByTS 1700000000000000000 1700003600000 30 = false) := by
  refine ⟨by decide, by decide, ?_⟩
  have h1 : filterByTS 1700000000000000000 1700003600000 30 = true := by decide!
  rw [h1]
  decide

/-- C5, amended: for every positive ttl and every creation timestamp in the future of
the clock reading (products and difference fitting in 64 bits), `filterByTS` is true
when the timestamp is at most `ttl×24h` ahead and false when it is at least
`ttl×24h + 2µs` ahead: only a timestamp beyond the window is not excluded. -/
theorem filterByTS_future (now ts ttl : Int) (hpos : 0 < ttl) (hfut : now < ts * Millisecond)
    (hts : minDuration ≤ ts * Millisecond ∧ ts * Millisecond ≤ maxDuration)
    (httl : minDuration ≤ ttl * 24 ∧ ttl * 24 ≤ maxDuration)
    (hd : ts * Millisecond - now ≤ maxDuration) :
    (ts * Millisecond - now ≤ ttl * 24 * Hour → filterByTS now ts ttl = true) ∧
    (ttl * 24 * Hour + 2000 ≤ ts * Millisecond - now → filterByTS now ts ttl = false) := by
  have habs : |now - ts * Millisecond| = ts * Millisecond - now := by
    rw [abs_of_neg (by omega)]; ring
  constructor
  · intro h
    exact filterByTS_inside now ts ttl hts httl (by rw [habs]; exact hd) (by omega)
      (by rw [habs]; exact h)
  · intro h
    exact filterByTS_outside now ts ttl hts httl (by rw [habs]; exact hd) (by rw [habs]; exact h)

/-- Witness for C5: at ttl 30 a timestamp 40 days ahead of the clock reading is not
excluded. -/
theorem filterByTS_future_witness :
    filterByTS 1700000000000000000 1703456000000 30 = false :=
  (filterByTS_future 1700000000000000000 1703456000000 30 (by decide) (by decide)
    (by decide) (by decide) (by decide)).2 (by decide)

/-! ## Request functions: what they record -/

theorem newRequest_method {σ : Type} (c : Client σ) (m uri tok : String) (b : Option String)
    (req : Request) (h : newRequest c m uri tok b = Except.ok req) : req.Method = m := by
  unfold newRequest at h
  cases hn : c.NewRequest m uri with
  | some err => rw [hn] at h; simp at h
  | none =>
    rw [hn] at h
    simp only [Except.ok.injEq] at h
    rw [← h]

theorem getMediaCount_log {σ : Type} (c : Client σ) (cfg : Config) (n : String) (w : World σ) :
    (getMediaCount c cfg n w).2.calls = w.calls ++ [Call.getMediaCount n] ∧
    ∃ l : List Request, (getMediaCount c cfg n w).2.sent = w.sent ++ l ∧
      ∀ r ∈ l, r.Method = "GET" := by
  unfold getMediaCount
  simp only []
  cases h : newRequest c "GET" (cfg.Host ++ "/_synapse/admin/v1/users/" ++ n ++ "/media?limit=1")
      cfg.Token none with
  | error e => exact ⟨by simp [World.enter], [], by simp [World.enter], by simp⟩
  | ok req =>
    have hm := newRequest_method c _ _ _ _ req h
    unfold send
    simp only []
    cases h2 : (c.Do (w.enter (Call.getMediaCount n)).srv req).1 with
    | error e => exact ⟨by simp [World.enter], [req], by simp [World.enter], by simp [hm]⟩
    | ok resp =>
      simp only []
      cases h3 : c.DecodeMedia resp.Body with
      | error e => exact ⟨by simp [World.enter], [req], by simp [World.enter], by simp [hm]⟩
      | ok v =>
        cases v <;> exact ⟨by simp [World.enter], [req], by simp [World.enter], by simp [hm]⟩

theorem deleteAccount_calls {σ : Type} (c : Client σ) (cfg : Config) (a : Account) (w : World σ) :
    (deleteAccount c cfg a w).2.calls = w.calls ++ [Call.deleteAccount a.Name] := by
  unfold deleteAccount
  simp only []
  cases h : newRequest c "POST" (cfg.Host ++ "/_synapse/admin/v1/deactivate/" ++ a.Name)
      cfg.Token (some "\x7b\"erase\": true\x7d") with
  | error e => simp [World.enter]
  | ok req =>
    unfold send
    simp only []
    cases h2 : (c.Do (w.enter (Call.deleteAccount a.Name)).srv req).1 <;> simp [World.enter]

/-- An iteration whose `deleteAccount` returns an error does nothing else, and the loop
continues with the remaining accounts. -/
theorem eraseLoop_cons_failed {σ : Type} (c : Client σ) (cfg : Config) (redact : Bool)
    (a : Account) (post : List Account) (w : World σ)
    (h : (deleteAccount c cfg a w).1 ≠ none) :
    eraseOne c cfg redact a w = (Run.ret (), (deleteAccount c cfg a w).2) ∧
    (eraseOne c cfg redact a w).2.calls = w.calls ++ [Call.deleteAccount a.Name] ∧
    eraseLoop c cfg redact (a :: post) w
      = eraseLoop c cfg redact post (deleteAccount c cfg a w).2 := by
  have hc := deleteAccount_calls c cfg a w
  have h1 : eraseOne c cfg redact a w = (Run.ret (), (deleteAccount c cfg a w).2) := by
    unfold eraseOne
    rcases hd : deleteAccount c cfg a w with ⟨r, w1⟩
    rw [hd] at h
    cases r with
    | none => exact absurd rfl h
    | some e => rfl
  refine ⟨h1, ?_, ?_⟩
  · rw [h1]; exact hc
  · simp only [eraseLoop]
    rw [h1]

/-! ## Listing and dry run -/

theorem addMediaCount_cons {σ : Type} (c : Client σ) (cfg : Config) (a : Account)
    (rest : List Account) (w : World σ) :
    addMediaCount c cfg (a :: rest) w
      = (match getMediaCount c cfg a.Name w with
          | (Run.panic msg, w1) => (Run.panic msg, w1)
          | (Run.ret (Except.error _), w1) =>
            match addMediaCount c cfg rest w1 with
            | (Run.panic msg, w2) => (Run.panic msg, w2)
            | (Run.ret done, w2) => (Run.ret (a :: done), w2)
          | (Run.ret (Except.ok mediaCount), w1) =>
            match addMediaCount c cfg rest w1 with
            | (Run.panic msg, w2) => (Run.panic msg, w2)
            | (Run.ret done, w2) => (Run.ret ({ a with UploadedMedia := mediaCount } :: done), w2)) := by
  simp only [addMediaCount]

/-- A media-count query that returns an error leaves its account as it was, and the loop
continues with the remaining accounts. -/
theorem addMediaCount_cons_error {σ : Type} (c : Client σ) (cfg : Config) (a : Account)
    (post : List Account) (w : World σ) (e : String)
    (h : (getMediaCount c cfg a.Name w).1 = Run.ret (Except.error e)) :
    addMediaCount c cfg (a :: post) w
      = (match addMediaCount c cfg post (getMediaCount c cfg a.Name w).2 with
          | (Run.panic msg, w2) => (Run.panic msg, w2)
          | (Run.ret done, w2) => (Run.ret (a :: done), w2)) := by
  rw [addMediaCount_cons]
  rcases hd : getMediaCount c cfg a.Name w with ⟨r, w1⟩
  rw [hd] at h
  simp only [] at h
  subst h
  rfl

theorem addMediaCount_log {σ : Type} (c : Client σ) (cfg : Config) (accounts : List Account) :
    ∀ w : World σ,
      (∃ ks : List Call, (addMediaCount c cfg accounts w).2.calls = w.calls ++ ks ∧
        ∀ k ∈ ks, ∃ n, k = Call.getMediaCount n) ∧
      (∃ l : List Request, (addMediaCount c cfg accounts w).2.sent = w.sent ++ l ∧
        ∀ r ∈ l, r.Method = "GET") := by
  induction accounts with
  | nil => intro w; exact ⟨⟨[], by simp [addMediaCount], by simp⟩, ⟨[], by simp [addMediaCount], by simp⟩⟩
  | cons a rest ih =>
    intro w
    obtain ⟨hk, l1, h1, g1⟩ := getMediaCount_log c cfg a.Name w
    rw [addMediaCount_cons]
    rcases hd : getMediaCount c cfg a.Name w with ⟨r, w1⟩
    rw [hd] at hk h1
    simp only [] at hk h1
    obtain ⟨⟨ks, hk2, gk2⟩, ⟨l2, h2, g2⟩⟩ := ih w1
    have callsOne : ∃ ks : List Call, w1.calls = w.calls ++ ks ∧
        ∀ k ∈ ks, ∃ n, k = Call.getMediaCount n := ⟨[Call.getMediaCount a.Name], hk, by simp⟩
    have callsAll : ∃ ks : List Call, (addMediaCount c cfg rest w1).2.calls = w.calls ++ ks ∧
        ∀ k ∈ ks, ∃ n, k = Call.getMediaCount n := by
      refine ⟨Call.getMediaCount a.Name :: ks, by rw [hk2, hk]; simp, ?_⟩
      intro k hkm
      rcases List.mem_cons.mp hkm with h | h
      · exact ⟨_, h⟩
      · exact gk2 k h
    have sentAll : ∃ l : List Request, (addMediaCount c cfg rest w1).2.sent = w.sent ++ l ∧
        ∀ r ∈ l, r.Method = "GET" := by
      refine ⟨l1 ++ l2, by rw [h2, h1, List.append_assoc], ?_⟩
      intro r hr
      rcases List.mem_append.mp hr with h | h
      · exact g1 r h
      · exact g2 r h
    cases r with
    | panic msg => exact ⟨callsOne, ⟨l1, h1, g1⟩⟩
    | ret v =>
      cases v with
      | error e =>
        simp only []
        rcases hr : addMediaCount c cfg rest w1 with ⟨q, w2⟩
        rw [hr] at callsAll sentAll
        cases q <;> exact ⟨callsAll, sentAll⟩
      | ok n =>
        simp only []
        rcases hr : addMediaCount c cfg rest w1 with ⟨q, w2⟩
        rw [hr] at callsAll sentAll
        cases q <;> exact ⟨callsAll, sentAll⟩

theorem loadAccounts_log {σ : Type} (c : Client σ) (cfg : Config) :
    ∀ (fuel : Nat) (tok : Option String) (w : World σ)
      (res : Run (List Account × Option String)) (w2 : World σ),
      loadAccounts c cfg fuel tok w = some (res, w2) →
      (∃ ks : List Call, w2.calls = w.calls ++ ks ∧ ∀ k ∈ ks, ∃ t, k = Call.loadAccounts t) ∧
      (∃ l : List Request, w2.sent = w.sent ++ l ∧ ∀ r ∈ l, r.Method = "GET") := by
  intro fuel
  induction fuel with
  | zero => intro tok w res w2 h; simp [loadAccounts] at h
  | succ f ih =>
    intro tok w res w2 h
    unfold loadAccounts at h
    simp only [] at h
    have one : ∃ ks : List Call, (w.enter (Call.loadAccounts (tok.getD "0"))).calls = w.calls ++ ks ∧
        ∀ k ∈ ks, ∃ t, k = Call.loadAccounts t :=
      ⟨[Call.loadAccounts (tok.getD "0")], rfl, by simp⟩
    cases hreq : newRequest c "GET" (cfg.Host ++ "/_synapse/admin/v2/users?from=" ++ tok.getD "0"
        ++ "&limit=1000&guests=false&admins=false&deactivated=false&order_by=creation_ts&dir=b")
        cfg.Token none with
    | error e =>
      rw [hreq] at h
      simp only [Option.some.injEq, Prod.mk.injEq] at h
      obtain ⟨_, hw⟩ := h
      subst hw
      exact ⟨one, [], by simp [World.enter], by simp⟩
    | ok req =>
      have hm := newRequest_method c _ _ _ _ req hreq
      rw [hreq] at h
      unfold send at h
      simp only [] at h
      have sentOne : ∀ s : σ, ∃ l : List Request,
          ({ srv := s, calls := (w.enter (Call.loadAccounts (tok.getD "0"))).calls,
             sent := (w.enter (Call.loadAccounts (tok.getD "0"))).sent ++ [req] } : World σ).sent
            = w.sent ++ l ∧ ∀ r ∈ l, r.Method = "GET" :=
        fun s => ⟨[req], by simp [World.enter], by simp [hm]⟩
      cases hdo : (c.Do (w.enter (Call.loadAccounts (tok.getD "0"))).srv req).1 with
      | error e =>
        rw [hdo] at h
        simp only [Option.some.injEq, Prod.mk.injEq] at h
        obtain ⟨_, hw⟩ := h
        subst hw
        exact ⟨one, sentOne _⟩
      | ok resp =>
        rw [hdo] at h
        simp only [] at h
        cases hdec : c.DecodeAccounts resp.Body with
        | error e =>
          rw [hdec] at h
          simp only [Option.some.injEq, Prod.mk.injEq] at h
          obtain ⟨_, hw⟩ := h
          subst hw
          exact ⟨one, sentOne _⟩
        | ok v =>
          cases v with
          | none =>
            rw [hdec] at h
            simp only [Option.some.injEq, Prod.mk.injEq] at h
            obtain ⟨_, hw⟩ := h
            subst hw
            exact ⟨one, sentOne _⟩
          | some accounts =>
            rw [hdec] at h
            simp only [] at h
            by_cases hn : accounts.NextToken = ""
            · rw [if_pos hn] at h
              simp only [Option.some.injEq, Prod.mk.injEq] at h
              obtain ⟨_, hw⟩ := h
              subst hw
              exact ⟨one, sentOne _⟩
            · rw [if_neg hn] at h
              cases hrec : loadAccounts c cfg f (some accounts.NextToken)
                  ({ srv := (c.Do (w.enter (Call.loadAccounts (tok.getD "0"))).srv req).2,
                     calls := (w.enter (Call.loadAccounts (tok.getD "0"))).calls,
                     sent := (w.enter (Call.loadAccounts (tok.getD "0"))).sent ++ [req] }
                    : World σ) with
              | none => rw [hrec] at h; simp at h
              | some r =>
                obtain ⟨q, w3⟩ := r
                obtain ⟨⟨ks, hk1, hk2⟩, ⟨l, hl1, hl2⟩⟩ := ih _ _ _ _ hrec
                rw [hrec] at h
                have hw : w3 = w2 := by
                  cases q with
                  | panic msg =>
                    simp only [Option.some.injEq, Prod.mk.injEq] at h
                    exact h.2
                  | ret v =>
                    obtain ⟨more, err⟩ := v
                    cases err <;> simp only [Option.some.injEq, Prod.mk.injEq] at h <;> exact h.2
                subst hw
                refine ⟨⟨Call.loadAccounts (tok.getD "0") :: ks, ?_, ?_⟩, ⟨req :: l, ?_, ?_⟩⟩
                · rw [hk1]; simp [World.enter]
                · intro k hk
                  rcases List.mem_cons.mp hk with h1 | h1
                  · exact ⟨_, h1⟩
                  · exact hk2 k h1
                · rw [hl1]; simp [World.enter]
                · intro r hr
                  rcases List.mem_cons.mp hr with h1 | h1
                  · rw [h1]; exact hm
                  · exact hl2 r h1

/-- In dry-run mode `main`, however it ends, has sent only `GET` requests and has called
no request function other than `loadAccounts` and `getMediaCount`. -/
theorem main_dry_run_only_reads {σ : Type} (c : Client σ) (env : Env) (flags : Flags)
    (now : Int) (fuel : Nat) (srv : σ) (res : Run Unit) (w2 : World σ)
    (hdry : dryRunMode (New env) flags = true)
    (hrun : main c env flags now fuel srv = some (res, w2)) :
    (∀ r ∈ w2.sent, r.Method = "GET") ∧
    (∀ k ∈ w2.calls, (∃ t, k = Call.loadAccounts t) ∨ (∃ n, k = Call.getMediaCount n)) := by
  unfold main at hrun
  cases hcfg : loadConfig env omitPrefixes with
  | error msg =>
    rw [hcfg] at hrun
    simp only [Option.some.injEq, Prod.mk.injEq] at hrun
    obtain ⟨_, hw⟩ := hrun
    subst hw
    exact ⟨by simp, by simp⟩
  | ok v =>
    obtain ⟨cfg, prefixes⟩ := v
    have hc : cfg = New env := by
      unfold loadConfig at hcfg
      simp only [] at hcfg
      split_ifs at hcfg
      simp only [Except.ok.injEq, Prod.mk.injEq] at hcfg
      exact hcfg.1.symm
    rw [hcfg] at hrun
    simp only [] at hrun
    cases hl : loadAccounts c cfg fuel none { srv := srv, calls := [], sent := [] } with
    | none => rw [hl] at hrun; simp at hrun
    | some v =>
      obtain ⟨q, w1⟩ := v
      obtain ⟨⟨ks, hk1, hk2⟩, ⟨l, hl1, hl2⟩⟩ := loadAccounts_log c cfg fuel none _ _ _ hl
      simp only [List.nil_append] at hk1 hl1
      have base : (∀ r ∈ w1.sent, r.Method = "GET") ∧
          (∀ k ∈ w1.calls, (∃ t, k = Call.loadAccounts t) ∨ (∃ n, k = Call.getMediaCount n)) := by
        constructor
        · intro r hr; rw [hl1] at hr; exact hl2 r hr
        · intro k hk; rw [hk1] at hk; exact Or.inl (hk2 k hk)
      rw [hl] at hrun
      cases q with
      | panic msg =>
        simp only [Option.some.injEq, Prod.mk.injEq] at hrun
        obtain ⟨_, hw⟩ := hrun
        subst hw
        exact base
      | ret v =>
        obtain ⟨accounts, err⟩ := v
        simp only [] at hrun
        rw [hc] at hrun
        rw [hdry] at hrun
        by_cases h0 : (filterAccounts prefixes now accounts (New env).TTL).length = 0
        · rw [if_pos h0] at hrun
          simp only [Option.some.injEq, Prod.mk.injEq] at hrun
          obtain ⟨_, hw⟩ := hrun
          subst hw
          exact base
        · rw [if_neg h0, if_pos rfl] at hrun
          obtain ⟨⟨ks3, h31, h32⟩, ⟨l3, h33, h34⟩⟩ := addMediaCount_log c (New env)
            (filterAccounts prefixes now accounts (New env).TTL) w1
          have hw : (addMediaCount c (New env)
              (filterAccounts prefixes now accounts (New env).TTL) w1).2 = w2 := by
            rcases hr : addMediaCount c (New env)
                (filterAccounts prefixes now accounts (New env).TTL) w1 with ⟨q, w3⟩
            rw [hr] at hrun
            cases q <;> simp only [Option.some.injEq, Prod.mk.injEq] at hrun <;> exact hrun.2
          rw [hw] at h31 h33
          constructor
          · intro r hr
            rw [h33] at hr
            rcases List.mem_append.mp hr with h | h
            · exact base.1 r h
            · exact h34 r h
          · intro k hk
            rw [h31] at hk
            rcases List.mem_append.mp hk with h | h
            · exact base.2 k h
            · exact Or.inr (h32 k h)

/-! ## Erasure executor, listing, dry run, configuration and deactivation: the claims -/

/-- C6: the code at three accounts. The deactivation of alice fails, so her iteration
calls nothing else and the loop goes on to bob; bob is deactivated, the reply to his
media deletion is the body `null`, and `deleteMedia` panics on the nil pointer: the run
ends there and `deleteAccount` is never called for carol. -/
theorem eraseLoop_stops_at_nil_media_reply :
    (eraseLoop nullBodyClient (New exampleEnv) true [alice, bob, carol] ⟨0, [], []⟩).1
      = Run.panic nilDereference ∧
    (eraseLoop nullBodyClient (New exampleEnv) true [alice, bob, carol] ⟨0, [], []⟩).2.calls
      = [Call.deleteAccount "@alice:example.org", Call.deleteAccount "@bob:example.org",
          Call.deleteMedia "@bob:example.org"] ∧
    Call.deleteAccount "@carol:example.org"
      ∉ (eraseLoop nullBodyClient (New exampleEnv) true [alice, bob, carol] ⟨0, [], []⟩).2.calls := by
  refine ⟨by decide, by decide, by decide⟩

/-- C7: the code at three pages. Pages one and two are fetched and decoded, each with a
continuation token, and the fetch of page three fails: `loadAccounts` returns the error
with the accounts of page one only; the account of page two is not in the result. -/
theorem loadAccounts_drops_inner_pages :
    (loadAccounts exampleClient (New exampleEnv) 5 none ⟨0, [], []⟩).map (fun r => r.1)
      = some (Run.ret ([alice], some "connection reset")) ∧
    (loadAccounts exampleClient (New exampleEnv) 5 none ⟨0, [], []⟩).map (fun r => r.1)
      ≠ some (Run.ret ([alice] ++ [bob], some "connection reset")) ∧
    (loadAccounts exampleClient (New exampleEnv) 5 none ⟨0, [], []⟩).map (fun r => r.2.calls)
      = some [Call.loadAccounts "0", Call.loadAccounts "t1", Call.loadAccounts "t2"] := by
  refine ⟨by decide, by decide, by decide⟩

/-- C8: the code at a dry run over three eligible accounts. The reply to the media-count
query for alice is the body `null`, and `getMediaCount` panics on the nil pointer: the
run ends there, no query is made for bob or carol; the two requests sent are `GET`s. -/
theorem main_dry_run_stops_at_nil_media_count :
    (main nullBodyClient exampleDryEnv ⟨none, none⟩ 1700000000000000000 5 0).map (fun r => r.1)
      = some (Run.panic nilDereference) ∧
    (main nullBodyClient exampleDryEnv ⟨none, none⟩ 1700000000000000000 5 0).map
        (fun r => r.2.calls)
      = some [Call.loadAccounts "0", Call.getMediaCount "@alice:example.org"] ∧
    (main nullBodyClient exampleDryEnv ⟨none, none⟩ 1700000000000000000 5 0).map
        (fun r => r.2.sent.map (fun q => q.Method))
      = some ["GET", "GET"] ∧
    filterAccounts (omitPrefixes ++ exampleDryEnv.slice "prefixes") 1700000000000000000
        [alice, bob, carol] 30 = [alice, bob, carol] := by
  refine ⟨by decide!, by decide!, by decide!, by decide!⟩

/-- C9: the code. `config.New` never reads the redact setting: for every environment
(also one whose `SUAE_REDACT` reads true) the `Redact` field is false, and without a
`-redact` flag `redactMode` is false, so the erase loop calls `deleteMessages` for no
account. -/
theorem New_never_sets_Redact (env : Env) (dry : Option Bool) :
    (New env).Redact = false ∧ redactMode (New env) ⟨dry, none⟩ = false ∧
    (New { env with bool := fun _ => true }).Redact = false := by
  refine ⟨rfl, rfl, rfl⟩

/-- C10: the code. Whatever status and body the server answers, `deleteAccount` returns
no error; at status 500 `deleteMessages` does return one, and the erase loop iteration
goes on to `deleteMedia` and `deleteMessages` after the refused deactivation. -/
theorem deleteAccount_ignores_status (status : Int) (body : String) (a : Account)
    (w : World Unit) :
    (deleteAccount (statusClient status body) (New exampleEnv) a w).1 = none ∧
    (deleteMessages (statusClient 500 "forbidden") (New exampleEnv) alice ⟨(), [], []⟩).1
      = some "failed to redact messages: forbidden" ∧
    (eraseOne (statusClient 500 "forbidden") (New exampleEnv) true alice ⟨(), [], []⟩).2.calls
      = [Call.deleteAccount "@alice:example.org", Call.deleteMedia "@alice:example.org",
          Call.deleteMessages "@alice:example.org"] := by
  refine ⟨rfl, by decide, by decide⟩

end Suae
